import Mathlib

/-!
Verification of the GNSS/IMU time-delay estimation repository.

This file shallowly embeds, over exact real arithmetic, the parts of the
source that the claims speak about:

* the 18-state error-state Kalman filter `ESKF` (src/src/common/math_utils.h,
  second document: the `sad::ESKF` template),
* the `TxtIO` ACC/GYR pairing logic (src/src/common/io_utils.cc),
* the offline reorganization and replay driver (src/unnamed/part_004),
* the turn detector (src/unnamed/part_003, header src/src/ch3/turn_detector.h).

The C++ code is templated over its scalar (`template <typename S = double>`);
the embedding instantiates the scalar with `ℝ` so that the trigonometric
functions used by the SO(3) exponential and logarithm are available exactly.
Sophus `SO3` group elements are represented by their 3x3 rotation matrices;
`SO3::inverse` is the matrix transpose and `SO3::exp` / `log` are the usual
Rodrigues formulas (the source's own `math::Exp` / `math::Log` use the same
formulas).
-/

namespace ESKF

abbrev Vec3 := Fin 3 → ℝ
abbrev Vec6 := Fin 6 → ℝ
abbrev Vec18 := Fin 18 → ℝ
abbrev Mat3 := Matrix (Fin 3) (Fin 3) ℝ
abbrev Mat6 := Matrix (Fin 6) (Fin 6) ℝ
abbrev Mat18 := Matrix (Fin 18) (Fin 18) ℝ

/-- IMU sample (common/imu.h): timestamp, gyroscope reading, accelerometer
reading. -/
structure IMU where
  timestamp : ℝ
  gyro : Vec3
  acce : Vec3

/-- SE3 pose: rotation matrix of the `so3` part plus translation. -/
structure SE3 where
  so3 : Mat3
  translation : Vec3

/-- GNSS fix (common/gnss.h) with the fields the ESKF consumes. -/
structure GNSS where
  unix_time : ℝ
  status : ℤ
  lat_lon_alt : Vec3
  heading_deg : ℝ
  heading_valid : Bool
  utm_pose : SE3

/-- Configuration options of the filter (`ESKF::Options`). -/
structure Options where
  imu_dt : ℝ
  gyro_var : ℝ
  acce_var : ℝ
  bias_gyro_var : ℝ
  bias_acce_var : ℝ
  gnss_pos_noise : ℝ
  gnss_height_noise : ℝ
  gnss_ang_noise : ℝ
  phone_roll_install : ℝ
  phone_pitch_install : ℝ
  phone_heading_install : ℝ
  enable_time_compensation : Bool
  fixed_time_delay : ℝ
  update_bias_gyro : Bool
  update_bias_acce : Bool

/-- Full member state of a `sad::ESKF` object: nominal state, error state,
covariance, the two noise matrices built by `BuildNoise`, the first-fix flag,
the installed phone-to-body rotation and the options. -/
structure State where
  current_time : ℝ
  p : Vec3
  v : Vec3
  R : Mat3
  bg : Vec3
  ba : Vec3
  g : Vec3
  dx : Vec18
  cov : Mat18
  Q : Mat18
  gnss_noise : Mat6
  first_gnss : Bool
  C_phone_to_body : Mat3
  options : Options

/-- Skew-symmetric (hat) matrix of a 3-vector, `SO3::hat` /
`math::SKEW_SYM_MATRIX`. -/
def so3Hat (v : Vec3) : Mat3 :=
  Matrix.of ![![0, -v 2, v 1], ![v 2, 0, -v 0], ![-v 1, v 0, 0]]

/-- Euclidean norm of a 3-vector. -/
noncomputable def vnorm (v : Vec3) : ℝ :=
  Real.sqrt (v 0 ^ 2 + v 1 ^ 2 + v 2 ^ 2)

/-- The SO(3) exponential map (`SO3::exp`), written via the Rodrigues
formula.  At `v = 0` both fraction coefficients are `0/0 = 0` in Lean, so the
value is the identity matrix, agreeing with the Taylor branch of the source. -/
noncomputable def so3Exp (v : Vec3) : Mat3 :=
  1 + (Real.sin (vnorm v) / vnorm v) • so3Hat v
    + ((1 - Real.cos (vnorm v)) / vnorm v ^ 2) • (so3Hat v * so3Hat v)

/-- The SO(3) logarithm (`SO3::log`, same formula as `math::Log` in
math_utils.h): angle from the trace, axis from the antisymmetric part. -/
noncomputable def so3Log (R : Mat3) : Vec3 :=
  let tr := R 0 0 + R 1 1 + R 2 2
  let theta := if tr > 3 - 0.000001 then 0 else Real.arccos (0.5 * (tr - 1))
  let K : Vec3 := ![R 2 1 - R 1 2, R 0 2 - R 2 0, R 1 0 - R 0 1]
  if |theta| < 0.001 then (0.5 : ℝ) • K else (0.5 * theta / Real.sin theta) • K

/-- Eigen block assignment `M.block<3,3>(r, c) = B` on an `m x n` matrix. -/
def insertBlock {m n : ℕ} (M : Matrix (Fin m) (Fin n) ℝ) (r c : ℕ)
    (B : Mat3) : Matrix (Fin m) (Fin n) ℝ :=
  Matrix.of fun i j =>
    if h : r ≤ i.val ∧ i.val < r + 3 ∧ c ≤ j.val ∧ j.val < c + 3 then
      B ⟨i.val - r, by omega⟩ ⟨j.val - c, by omega⟩
    else M i j

/-- Read the 3-vector block `dx.block<3,1>(k, 0)` of an 18-vector. -/
def blockOf (dx : Vec18) (k : ℕ) : Vec3 :=
  fun i => if h : k + i.val < 18 then dx ⟨k + i.val, h⟩ else 0

/-- The rotation matrix `Cbn` built by `ESKF::Euler2Cbn` from the three
installation Euler angles (rotations about X, Y, Z composed and transposed). -/
noncomputable def euler2Cbn (roll pitch heading : ℝ) : Mat3 :=
  let C1 : Mat3 := Matrix.of
    ![![Real.cos roll, 0, -Real.sin roll], ![0, 1, 0],
      ![Real.sin roll, 0, Real.cos roll]]
  let C2 : Mat3 := Matrix.of
    ![![1, 0, 0], ![0, Real.cos pitch, Real.sin pitch],
      ![0, -Real.sin pitch, Real.cos pitch]]
  let C3 : Mat3 := Matrix.of
    ![![Real.cos heading, -Real.sin heading, 0],
      ![Real.sin heading, Real.cos heading, 0], ![0, 0, 1]]
  (C1 * C2 * C3).transpose

/-- `ESKF::BuildPhoneInstallMatrix`. -/
noncomputable def buildPhoneInstallMatrix (o : Options) : Mat3 :=
  euler2Cbn o.phone_roll_install o.phone_pitch_install o.phone_heading_install

/-- `ESKF::ApplyPhoneInstallCorrection`: pre-rotate both IMU vectors by the
phone-to-body matrix; the timestamp is untouched. -/
def applyPhoneInstallCorrection (C : Mat3) (imu : IMU) : IMU :=
  { imu with acce := C.mulVec imu.acce, gyro := C.mulVec imu.gyro }

/-- `ESKF::ApplyTimeCompensation`: shift the IMU timestamp by the fixed delay
when compensation is enabled. -/
def applyTimeCompensation (o : Options) (imu : IMU) : IMU :=
  if o.enable_time_compensation then
    { imu with timestamp := imu.timestamp + o.fixed_time_delay }
  else imu

/-- The process-noise matrix `Q_` assembled by `ESKF::BuildNoise`.  Note the
source deliberately comments out the squaring (`double ev2 = ev; // * ev;`),
so the diagonal carries the configured variances directly. -/
def buildNoiseQ (o : Options) : Mat18 :=
  Matrix.diagonal
    ![0, 0, 0, o.acce_var, o.acce_var, o.acce_var,
      o.gyro_var, o.gyro_var, o.gyro_var,
      o.bias_gyro_var, o.bias_gyro_var, o.bias_gyro_var,
      o.bias_acce_var, o.bias_acce_var, o.bias_acce_var, 0, 0, 0]

/-- The member `gnss_noise_` assembled by `ESKF::BuildNoise` from the squared
GNSS noises.  This matrix is never read by the observation updates. -/
def buildGnssNoise (o : Options) : Mat6 :=
  Matrix.diagonal
    ![o.gnss_pos_noise * o.gnss_pos_noise, o.gnss_pos_noise * o.gnss_pos_noise,
      o.gnss_height_noise * o.gnss_height_noise,
      o.gnss_ang_noise * o.gnss_ang_noise, o.gnss_ang_noise * o.gnss_ang_noise,
      o.gnss_ang_noise * o.gnss_ang_noise]

/-- Member initializers of a freshly constructed `sad::ESKF` (constructor runs
`BuildNoise` and `BuildPhoneInstallMatrix`). -/
noncomputable def construct (o : Options) : State :=
  { current_time := 0, p := 0, v := 0, R := 1, bg := 0, ba := 0
    g := ![0, 0, -9.8], dx := 0, cov := 1
    Q := buildNoiseQ o, gnss_noise := buildGnssNoise o
    first_gnss := true, C_phone_to_body := buildPhoneInstallMatrix o
    options := o }

/-- `ESKF::SetInitialConditions`. -/
noncomputable def setInitialConditions (st : State) (o : Options)
    (init_bg init_ba gravity : Vec3) : State :=
  { st with Q := buildNoiseQ o, gnss_noise := buildGnssNoise o, options := o
            bg := init_bg, ba := init_ba, g := gravity
            cov := (0.0001 : ℝ) • (1 : Mat18)
            C_phone_to_body := buildPhoneInstallMatrix o }

/-- The reset projection matrix `J` of `ESKF::ProjectCov`, identity except for
the attitude block `I - 1/2 [dx(6:9)]x`. -/
noncomputable def projJ (dx : Vec18) : Mat18 :=
  insertBlock (1 : Mat18) 6 6 ((1 : Mat3) - (0.5 : ℝ) • so3Hat (blockOf dx 6))

/-- `ESKF::ProjectCov`: `cov <- J cov Jᵀ`. -/
noncomputable def projectCov (st : State) : State :=
  { st with cov := projJ st.dx * st.cov * (projJ st.dx).transpose }

/-- `ESKF::UpdateAndReset`: fold the error state into the nominal state
(biases only when the corresponding option is set), project the covariance,
zero the error state. -/
noncomputable def updateAndReset (st : State) : State :=
  let st1 :=
    { st with
      p := st.p + blockOf st.dx 0
      v := st.v + blockOf st.dx 3
      R := st.R * so3Exp (blockOf st.dx 6)
      bg := if st.options.update_bias_gyro then st.bg + blockOf st.dx 9 else st.bg
      ba := if st.options.update_bias_acce then st.ba + blockOf st.dx 12 else st.ba
      g := st.g + blockOf st.dx 15 }
  { projectCov st1 with dx := 0 }

/-- The IMU sample seen by the body of `ESKF::Predict`: installation rotation
applied, then the optional time shift. -/
noncomputable def compensatedIMU (st : State) (imu : IMU) : IMU :=
  applyTimeCompensation st.options (applyPhoneInstallCorrection st.C_phone_to_body imu)

/-- Nominal position propagation of `ESKF::Predict`:
`p + v dt + 1/2 R (a - ba) dt² + 1/2 g dt²`. -/
noncomputable def predictNewP (st : State) (ci : IMU) (dt : ℝ) : Vec3 :=
  st.p + dt • st.v + ((0.5 : ℝ) * dt * dt) • st.R.mulVec (ci.acce - st.ba)
    + ((0.5 : ℝ) * dt * dt) • st.g

/-- Nominal velocity propagation of `ESKF::Predict`:
`v + R (a - ba) dt + g dt`. -/
noncomputable def predictNewV (st : State) (ci : IMU) (dt : ℝ) : Vec3 :=
  st.v + dt • st.R.mulVec (ci.acce - st.ba) + dt • st.g

/-- Nominal rotation propagation of `ESKF::Predict`:
`R Exp((w - bg) dt)`. -/
noncomputable def predictNewR (st : State) (ci : IMU) (dt : ℝ) : Mat3 :=
  st.R * so3Exp (dt • (ci.gyro - st.bg))

/-- The discrete transition matrix `F` of `ESKF::Predict`: identity on the
diagonal, with the six non-identity blocks of eq. (3.47).  It is built from
the already updated rotation `new_R`, exactly as in the source, which
overwrites `R_` before assembling `F`. -/
noncomputable def predictF (st : State) (ci : IMU) (dt : ℝ) : Mat18 :=
  insertBlock (insertBlock (insertBlock (insertBlock (insertBlock
    (insertBlock (1 : Mat18)
      0 3 (dt • (1 : Mat3)))
      3 6 (-(dt • (predictNewR st ci dt * so3Hat (ci.acce - st.ba)))))
      3 12 (-(dt • predictNewR st ci dt)))
      3 15 (dt • (1 : Mat3)))
      6 6 (so3Exp (-(dt • (ci.gyro - st.bg)))))
      6 9 (-(dt • (1 : Mat3)))

/-- The state produced by the non-guarded branch of `ESKF::Predict`: nominal
state propagated, error state and covariance pushed through `F`, clock
advanced. -/
noncomputable def predictSuccess (st : State) (ci : IMU) (dt : ℝ) : State :=
  { st with p := predictNewP st ci dt, v := predictNewV st ci dt
            R := predictNewR st ci dt
            dx := (predictF st ci dt).mulVec st.dx
            cov := predictF st ci dt * st.cov * (predictF st ci dt).transpose + st.Q
            current_time := ci.timestamp }

/-- `ESKF::Predict`.  Returns the same success flag as the C++ `bool` and the
state after the call. -/
noncomputable def predict (st : State) (imu : IMU) : Bool × State :=
  let ci := compensatedIMU st imu
  let dt := ci.timestamp - st.current_time
  if dt < 0 then (false, st)
  else if dt > 5 * st.options.imu_dt then
    (false, { st with current_time := ci.timestamp })
  else (true, predictSuccess st ci dt)

/-- Observation model matrix `H` of `ESKF::ObserveSE3`: 6x18, identity in the
position block `(0,0)` and in the rotation block `(3,6)`. -/
def H6 : Matrix (Fin 6) (Fin 18) ℝ :=
  insertBlock (insertBlock (0 : Matrix (Fin 6) (Fin 18) ℝ) 0 0 (1 : Mat3)) 3 6 (1 : Mat3)

/-- Observation model matrix `H` of `ESKF::ObservePositionOnly`: 3x18,
identity in the position block only. -/
def H3 : Matrix (Fin 3) (Fin 18) ℝ :=
  insertBlock (0 : Matrix (Fin 3) (Fin 18) ℝ) 0 0 (1 : Mat3)

/-- The observation noise matrix `V` assembled inside `ESKF::ObserveSE3`:
`noise_vec << trans_noise, trans_noise, trans_noise, ang_noise, ang_noise,
ang_noise; V = noise_vec.asDiagonal()`. -/
def se3NoiseV (trans_noise ang_noise : ℝ) : Mat6 :=
  Matrix.diagonal
    ![trans_noise, trans_noise, trans_noise, ang_noise, ang_noise, ang_noise]

/-- The observation noise matrix `V` assembled inside the position-only
`ESKF::ObservePositionOnly(SE3, double)`. -/
def posNoiseV (trans_noise : ℝ) : Mat3 :=
  Matrix.diagonal ![trans_noise, trans_noise, trans_noise]

/-- The Kalman gain of `ESKF::ObserveSE3`:
`K = cov Hᵀ (H cov Hᵀ + V)⁻¹`. -/
noncomputable def gainSE3 (P : Mat18) (trans_noise ang_noise : ℝ) :
    Matrix (Fin 18) (Fin 6) ℝ :=
  P * H6.transpose *
    (H6 * P * H6.transpose + se3NoiseV trans_noise ang_noise)⁻¹

/-- The Kalman gain of the position-only `ESKF::ObservePositionOnly`. -/
noncomputable def gainPos (P : Mat18) (trans_noise : ℝ) :
    Matrix (Fin 18) (Fin 3) ℝ :=
  P * H3.transpose * (H3 * P * H3.transpose + posNoiseV trans_noise)⁻¹

/-- `ESKF::ObserveSE3`: full pose observation.  The innovation stacks the
position residual over the rotation-tangent residual
`(R_.inverse() * pose.so3()).log()`, then zeroes components 3 and 4 (roll and
pitch) before applying the gain; finishes with `UpdateAndReset`. -/
noncomputable def observeSE3 (st : State) (pose : SE3)
    (trans_noise ang_noise : ℝ) : Bool × State :=
  let K := gainSE3 st.cov trans_noise ang_noise
  let innov0 : Vec6 := fun i =>
    if h : i.val < 3 then (pose.translation - st.p) ⟨i.val, h⟩
    else (so3Log (st.R.transpose * pose.so3)) ⟨i.val - 3, by omega⟩
  let innov : Vec6 := fun i => if i.val = 3 ∨ i.val = 4 then 0 else innov0 i
  (true, updateAndReset
    { st with dx := K.mulVec innov
              cov := ((1 : Mat18) - K * H6) * st.cov })

/-- `ESKF::ObservePositionOnly(const SE3&, double)`: position-only
observation with the 3x18 `H` and innovation `pose.translation - p_`. -/
noncomputable def observePositionOnlySE3 (st : State) (pose : SE3)
    (trans_noise : ℝ) : Bool × State :=
  let K := gainPos st.cov trans_noise
  let innov : Vec3 := pose.translation - st.p
  (true, updateAndReset
    { st with dx := K.mulVec innov
              cov := ((1 : Mat18) - K * H3) * st.cov })

/-- `ESKF::ObserveGps`: first fix initializes pose, time and the flag and
returns true; afterwards an invalid heading skips the update (false) and
otherwise `ObserveSE3` runs with the configured GNSS noises. -/
noncomputable def observeGps (st : State) (gnss : GNSS) : Bool × State :=
  if st.first_gnss then
    (true, { st with R := gnss.utm_pose.so3, p := gnss.utm_pose.translation
                     first_gnss := false, current_time := gnss.unix_time })
  else if gnss.heading_valid = false then (false, st)
  else
    (true, (observeSE3 st gnss.utm_pose st.options.gnss_pos_noise
      st.options.gnss_ang_noise).2)

/-- `ESKF::ObservePositionOnly(const GNSS&)`: same first-fix branch, then the
position-only SE3 observation with the configured position noise; the heading
flag is never consulted. -/
noncomputable def observePositionOnlyGnss (st : State) (gnss : GNSS) :
    Bool × State :=
  if st.first_gnss then
    (true, { st with R := gnss.utm_pose.so3, p := gnss.utm_pose.translation
                     first_gnss := false, current_time := gnss.unix_time })
  else
    (true, (observePositionOnlySE3 st gnss.utm_pose
      st.options.gnss_pos_noise).2)

/-! Concrete fixtures used by witnesses: a simple option set (zero install
angles, unit noises, compensation off) and concrete filter states. -/

/-- Options with zero installation angles, unit GNSS noises, zero process
noise, `imu_dt = 1` and time compensation disabled. -/
noncomputable def optZero : Options :=
  { imu_dt := 1, gyro_var := 0, acce_var := 0, bias_gyro_var := 0
    bias_acce_var := 0, gnss_pos_noise := 1, gnss_height_noise := 1
    gnss_ang_noise := 1, phone_roll_install := 0, phone_pitch_install := 0
    phone_heading_install := 0, enable_time_compensation := false
    fixed_time_delay := 0.2, update_bias_gyro := true
    update_bias_acce := true }

/-- A concrete filter state that is past its first fix. -/
noncomputable def stPast : State :=
  { current_time := 0, p := 0, v := 0, R := 1, bg := 0, ba := 0
    g := ![0, 0, -9.8], dx := 0, cov := 1, Q := 0, gnss_noise := 0
    first_gnss := false, C_phone_to_body := 1, options := optZero }

/-- A concrete filter state that still awaits its first fix. -/
noncomputable def stFresh : State :=
  { current_time := 0, p := 0, v := 0, R := 1, bg := 0, ba := 0
    g := ![0, 0, -9.8], dx := 0, cov := 1, Q := 0, gnss_noise := 0
    first_gnss := true, C_phone_to_body := 1, options := optZero }

/-- A concrete fix whose heading-valid flag is false. -/
noncomputable def gnssNoHeading : GNSS :=
  { unix_time := 5, status := 4, lat_lon_alt := 0, heading_deg := 0
    heading_valid := false, utm_pose := ⟨1, ![3, 4, 0]⟩ }

/-- C8: after the filter has been initialized by its first fix
(`first_gnss_ = false`), `ObserveGps` with an invalid heading returns without
performing an update: the call yields `false` and the entire filter state —
nominal state, covariance, error state, `current_time_` — is unchanged. -/
theorem observeGps_invalid_heading_skips (st : State) (gnss : GNSS)
    (h1 : st.first_gnss = false) (h2 : gnss.heading_valid = false) :
    observeGps st gnss = (false, st) := by
  simp [observeGps, h1, h2]

/-- Witness for C8 at the concrete state `stPast` and fix `gnssNoHeading`. -/
theorem observeGps_invalid_heading_skips_witness :
    observeGps stPast gnssNoHeading = (false, stPast) :=
  observeGps_invalid_heading_skips stPast gnssNoHeading rfl rfl

/-- C9: the first GNSS fix passed to `ObserveGps` or to
`ObservePositionOnly(GNSS)` initializes the filter: `R` and `p` are set from
the fix pose, `current_time_` from the fix time, the `first_gnss_` flag is
cleared and the call returns `true` — for every fix, in particular also when
its heading-valid flag is false, because the first-fix branch precedes the
heading-validity check. -/
theorem first_fix_initializes (st : State) (gnss : GNSS)
    (h : st.first_gnss = true) :
    observeGps st gnss =
      (true, { st with R := gnss.utm_pose.so3, p := gnss.utm_pose.translation
                       first_gnss := false, current_time := gnss.unix_time })
    ∧ observePositionOnlyGnss st gnss =
      (true, { st with R := gnss.utm_pose.so3, p := gnss.utm_pose.translation
                       first_gnss := false, current_time := gnss.unix_time }) := by
  constructor <;> simp [observeGps, observePositionOnlyGnss, h]

/-- Witness for C9 at the fresh state `stFresh` and the heading-invalid fix
`gnssNoHeading`. -/
theorem first_fix_initializes_witness :
    observeGps stFresh gnssNoHeading =
      (true, { stFresh with R := gnssNoHeading.utm_pose.so3
                            p := gnssNoHeading.utm_pose.translation
                            first_gnss := false
                            current_time := gnssNoHeading.unix_time })
    ∧ observePositionOnlyGnss stFresh gnssNoHeading =
      (true, { stFresh with R := gnssNoHeading.utm_pose.so3
                            p := gnssNoHeading.utm_pose.translation
                            first_gnss := false
                            current_time := gnssNoHeading.unix_time }) :=
  first_fix_initializes stFresh gnssNoHeading rfl

/-- C3: with `dt` the difference between the compensated IMU timestamp (after
installation rotation, which never touches the timestamp, and the optional
time shift) and `current_time_`: a negative `dt` makes `Predict` fail with
the whole state unchanged; `dt > 5 imu_dt` makes it fail having only advanced
`current_time_` to the IMU timestamp; otherwise `Predict` propagates the
nominal state and covariance (`predictSuccess`) and returns success — it
never fails outside the two guards. -/
theorem predict_dt_guards (st : State) (imu : IMU) :
    ((compensatedIMU st imu).timestamp - st.current_time < 0 →
       predict st imu = (false, st))
  ∧ (0 ≤ (compensatedIMU st imu).timestamp - st.current_time →
       (compensatedIMU st imu).timestamp - st.current_time > 5 * st.options.imu_dt →
       predict st imu = (false, { st with current_time := (compensatedIMU st imu).timestamp }))
  ∧ (0 ≤ (compensatedIMU st imu).timestamp - st.current_time →
       (compensatedIMU st imu).timestamp - st.current_time ≤ 5 * st.options.imu_dt →
       predict st imu = (true, predictSuccess st (compensatedIMU st imu)
         ((compensatedIMU st imu).timestamp - st.current_time))) := by
  refine ⟨fun hneg => ?_, fun hge hbig => ?_, fun hge hsmall => ?_⟩ <;>
    simp only [predict] <;> split_ifs with h1 h2 <;> first
      | rfl
      | (exfalso; first | exact absurd hneg h1 | linarith)

/-- Witness for C3: a concrete IMU sample that arrives 1 s late relative to
`current_time` triggers the negative-`dt` guard of `Predict`. -/
theorem predict_dt_guards_witness :
    predict { stPast with current_time := 1 } ⟨0, 0, 0⟩ =
      (false, { stPast with current_time := 1 }) := by
  refine (predict_dt_guards { stPast with current_time := 1 } ⟨0, 0, 0⟩).1 ?_
  norm_num [compensatedIMU, applyTimeCompensation, applyPhoneInstallCorrection,
    stPast, optZero]

/-- C2 counterexample: at `trans_noise = 2`, `ang_noise = 1`, the observation
noise matrix actually used by `ObserveSE3` and `ObservePositionOnly` carries
the unsquared value `2` (not `2² = 4`) in the position diagonal, refuting the
claim that the diagonal entries are the squared noises. -/
theorem observe_noise_not_squared_example :
    se3NoiseV 2 1 0 0 = 2 ∧ se3NoiseV 2 1 0 0 ≠ (2 : ℝ) ^ 2
    ∧ posNoiseV 2 0 0 = 2 ∧ posNoiseV 2 0 0 ≠ (2 : ℝ) ^ 2 := by
  norm_num [se3NoiseV, posNoiseV, Matrix.diagonal_apply_eq]

/-- C2 (amended): the observation noise matrix `V` used in the Kalman gain
`K = P Hᵀ (H P Hᵀ + V)⁻¹` is the 6x6 diagonal matrix whose first three
diagonal entries are the translation noise `trans` and whose last three are
the angular noise `ang` — both unsquared — and for position-only observations
the 3x3 diagonal matrix with `trans` in all three entries.  (The squared
matrix `gnss_noise_` assembled by `BuildNoise` matches the squared reading
but is never consulted by the updates.) -/
theorem observe_noise_diagonal_unsquared (t a : ℝ) (i j : Fin 6)
    (i3 j3 : Fin 3) :
    se3NoiseV t a i i = (if i.val < 3 then t else a)
  ∧ (i ≠ j → se3NoiseV t a i j = 0)
  ∧ posNoiseV t i3 i3 = t
  ∧ (i3 ≠ j3 → posNoiseV t i3 j3 = 0)
  ∧ gainSE3 (1 : Mat18) t a =
      (1 : Mat18) * H6.transpose * (H6 * (1 : Mat18) * H6.transpose + se3NoiseV t a)⁻¹
  ∧ gainPos (1 : Mat18) t =
      (1 : Mat18) * H3.transpose * (H3 * (1 : Mat18) * H3.transpose + posNoiseV t)⁻¹ := by
  refine ⟨?_, fun hij => Matrix.diagonal_apply_ne _ hij, ?_,
    fun hij => Matrix.diagonal_apply_ne _ hij, rfl, rfl⟩
  · fin_cases i <;> rfl
  · fin_cases i3 <;> rfl

/-- Witness for C2's amended statement at concrete indices. -/
theorem observe_noise_diagonal_unsquared_witness :
    se3NoiseV 3 4 0 0 = (if (0 : Fin 6).val < 3 then (3 : ℝ) else 4)
    ∧ ((0 : Fin 6) ≠ 1 → se3NoiseV 3 4 0 1 = 0) := by
  have h := observe_noise_diagonal_unsquared 3 4 0 1 0 1
  exact ⟨h.1, h.2.1⟩

/-- C4: each covariance map of the filter sends a symmetric `P` to a
symmetric result (exact arithmetic): the prediction `F P Fᵀ + Q` with the
diagonal `Q` of `BuildNoise`, the full-pose and position-only updates
`(1 - K H) P` with their optimal gains `gainSE3` / `gainPos`, and the reset
projection `J P Jᵀ` of `ProjectCov`. -/
theorem cov_updates_preserve_symm (o : Options) (F P : Mat18) (dxv : Vec18)
    (t a : ℝ) (hP : P.transpose = P) :
    (F * P * F.transpose + buildNoiseQ o).transpose
        = F * P * F.transpose + buildNoiseQ o
  ∧ (((1 : Mat18) - gainSE3 P t a * H6) * P).transpose
        = ((1 : Mat18) - gainSE3 P t a * H6) * P
  ∧ (((1 : Mat18) - gainPos P t * H3) * P).transpose
        = ((1 : Mat18) - gainPos P t * H3) * P
  ∧ (projJ dxv * P * (projJ dxv).transpose).transpose
        = projJ dxv * P * (projJ dxv).transpose := by
  have hV6 : (se3NoiseV t a).transpose = se3NoiseV t a := by
    simp only [se3NoiseV]; exact Matrix.diagonal_transpose _
  have hV3 : (posNoiseV t).transpose = posNoiseV t := by
    simp only [posNoiseV]; exact Matrix.diagonal_transpose _
  refine ⟨?_, ?_, ?_, ?_⟩
  · rw [Matrix.transpose_add, Matrix.transpose_mul, Matrix.transpose_mul,
      Matrix.transpose_transpose, hP, buildNoiseQ, Matrix.diagonal_transpose,
      Matrix.mul_assoc]
  · unfold gainSE3
    simp only [Matrix.sub_mul, Matrix.one_mul, Matrix.transpose_sub,
      Matrix.transpose_add, Matrix.transpose_mul, Matrix.transpose_transpose,
      Matrix.transpose_nonsing_inv, hP, hV6, Matrix.mul_assoc]
  · unfold gainPos
    simp only [Matrix.sub_mul, Matrix.one_mul, Matrix.transpose_sub,
      Matrix.transpose_add, Matrix.transpose_mul, Matrix.transpose_transpose,
      Matrix.transpose_nonsing_inv, hP, hV3, Matrix.mul_assoc]
  · rw [Matrix.transpose_mul, Matrix.transpose_mul, Matrix.transpose_transpose,
      hP, Matrix.mul_assoc]

/-- Witness for C4 at `P = 1` (symmetric), `F = 1`, `dx = 0`. -/
theorem cov_updates_preserve_symm_witness :
    ((1 : Mat18) * (1 : Mat18) * (1 : Mat18).transpose + buildNoiseQ optZero).transpose
        = (1 : Mat18) * (1 : Mat18) * (1 : Mat18).transpose + buildNoiseQ optZero
  ∧ (((1 : Mat18) - gainSE3 (1 : Mat18) 1 1 * H6) * (1 : Mat18)).transpose
        = ((1 : Mat18) - gainSE3 (1 : Mat18) 1 1 * H6) * (1 : Mat18)
  ∧ (((1 : Mat18) - gainPos (1 : Mat18) 1 * H3) * (1 : Mat18)).transpose
        = ((1 : Mat18) - gainPos (1 : Mat18) 1 * H3) * (1 : Mat18)
  ∧ (projJ 0 * (1 : Mat18) * (projJ 0).transpose).transpose
        = projJ 0 * (1 : Mat18) * (projJ 0).transpose :=
  cov_updates_preserve_symm optZero 1 1 0 1 1 Matrix.transpose_one

/-- Nominal state snapshot `NavState` returned by `ESKF::GetNominalState`. -/
structure NavState where
  timestamp : ℝ
  R : Mat3
  p : Vec3
  v : Vec3
  bg : Vec3
  ba : Vec3

/-- `ESKF::GetNominalState`. -/
noncomputable def getNominalState (st : State) : NavState :=
  ⟨st.current_time, st.R, st.p, st.v, st.bg, st.ba⟩

/-- Two-argument arctangent, the semantics of C `atan2(y, x)`. -/
noncomputable def atan2 (y x : ℝ) : ℝ :=
  if 0 < x then Real.arctan (y / x)
  else if x < 0 ∧ 0 ≤ y then Real.arctan (y / x) + Real.pi
  else if x < 0 ∧ y < 0 then Real.arctan (y / x) - Real.pi
  else if x = 0 ∧ 0 < y then Real.pi / 2
  else if x = 0 ∧ y < 0 then -(Real.pi / 2)
  else 0

/-- `ESKF::GetCurrentHeading`: `atan2(R(1,0), R(0,0))`. -/
noncomputable def getCurrentHeading (st : State) : ℝ :=
  atan2 (st.R 1 0) (st.R 0 0)

/-- `ESKF::ComputeLateralResidual`:
`dis_e cos(heading) - dis_n sin(heading)`. -/
noncomputable def computeLateralResidual (st : State) (utm_residual : Vec3) : ℝ :=
  utm_residual 0 * Real.cos (getCurrentHeading st)
    - utm_residual 1 * Real.sin (getCurrentHeading st)

/-- The record written by `ESKF::SaveCovariance`: the current time and the 18
diagonal entries of `cov_`. -/
noncomputable def saveCovariance (st : State) : ℝ × (Fin 18 → ℝ) :=
  (st.current_time, fun i => st.cov i i)

end ESKF

namespace TxtIO

/-! Embedding of the `sad::TxtIO` ACC/GYR pairing state machine
(src/src/common/io_utils.cc and io_utils.h).  The parser keeps one pending
slot per sensor kind — the two single-member fields `pending_acc_` and
`pending_gyr_` — so at most one sample of each kind is ever pending.
`ProcessACC` / `ProcessGYR` overwrite their slot with the newly parsed sample
and then call `TryCreateIMU`. -/

/-- The `PendingAccData` member struct. -/
structure PendingAccData where
  timestamp : ℝ
  acce : ESKF.Vec3
  valid : Bool

/-- The `PendingGyrData` member struct. -/
structure PendingGyrData where
  timestamp : ℝ
  gyro : ESKF.Vec3
  valid : Bool

/-- The pairing-relevant members of a `TxtIO` object. -/
structure PairState where
  pending_acc : PendingAccData
  pending_gyr : PendingGyrData

/-- The 50 ms synchronization threshold `TIME_SYNC_THRESHOLD = 0.05`. -/
def TIME_SYNC_THRESHOLD : ℝ := 0.05

/-- `TxtIO::TryCreateIMU`: returns the updated pending slots plus the IMU
event emitted through the callback, if any. -/
noncomputable def tryCreateIMU (s : PairState) : PairState × Option ESKF.IMU :=
  if s.pending_acc.valid = false ∨ s.pending_gyr.valid = false then (s, none)
  else
    let time_diff := |s.pending_acc.timestamp - s.pending_gyr.timestamp|
    if time_diff > TIME_SYNC_THRESHOLD then
      if s.pending_acc.timestamp < s.pending_gyr.timestamp then
        ({ s with pending_acc := { s.pending_acc with valid := false } }, none)
      else
        ({ s with pending_gyr := { s.pending_gyr with valid := false } }, none)
    else
      let timestamp := max s.pending_acc.timestamp s.pending_gyr.timestamp
      ({ s with pending_acc := { s.pending_acc with valid := false }
                pending_gyr := { s.pending_gyr with valid := false } },
       some ⟨timestamp, s.pending_gyr.gyro, s.pending_acc.acce⟩)

/-- Tail of `TxtIO::ProcessACC` after parsing: store the sample in the single
ACC slot (overwriting any previous pending ACC) and attempt the pairing. -/
noncomputable def storeAcc (s : PairState) (t : ℝ) (a : ESKF.Vec3) :
    PairState × Option ESKF.IMU :=
  tryCreateIMU { s with pending_acc := ⟨t, a, true⟩ }

/-- Tail of `TxtIO::ProcessGYR` after parsing: store the sample in the single
GYR slot and attempt the pairing. -/
noncomputable def storeGyr (s : PairState) (t : ℝ) (g : ESKF.Vec3) :
    PairState × Option ESKF.IMU :=
  tryCreateIMU { s with pending_gyr := ⟨t, g, true⟩ }

/-- C7: with both slots pending (the state type itself keeps at most one
pending sample of each kind), `TryCreateIMU` emits exactly one IMU event with
timestamp `max(t_acc, t_gyr)` and clears both slots when
`|t_acc - t_gyr| ≤ 50 ms`; when the difference exceeds 50 ms it emits nothing
and drops exactly the older pending sample, keeping the newer. -/
theorem tryCreateIMU_pairing (s : PairState)
    (hA : s.pending_acc.valid = true) (hG : s.pending_gyr.valid = true) :
    (|s.pending_acc.timestamp - s.pending_gyr.timestamp| ≤ TIME_SYNC_THRESHOLD →
      tryCreateIMU s =
        ({ s with pending_acc := { s.pending_acc with valid := false }
                  pending_gyr := { s.pending_gyr with valid := false } },
         some ⟨max s.pending_acc.timestamp s.pending_gyr.timestamp,
               s.pending_gyr.gyro, s.pending_acc.acce⟩))
  ∧ (|s.pending_acc.timestamp - s.pending_gyr.timestamp| > TIME_SYNC_THRESHOLD →
      s.pending_acc.timestamp < s.pending_gyr.timestamp →
      tryCreateIMU s =
        ({ s with pending_acc := { s.pending_acc with valid := false } }, none))
  ∧ (|s.pending_acc.timestamp - s.pending_gyr.timestamp| > TIME_SYNC_THRESHOLD →
      ¬ s.pending_acc.timestamp < s.pending_gyr.timestamp →
      tryCreateIMU s =
        ({ s with pending_gyr := { s.pending_gyr with valid := false } }, none)) := by
  refine ⟨fun hle => ?_, fun hgt hlt => ?_, fun hgt hnlt => ?_⟩ <;>
    simp only [tryCreateIMU, hA, hG] <;>
    split_ifs with h1 h2 h3 <;> first
      | rfl
      | (exfalso; first | tauto | linarith)

/-- Witness for C7: an ACC at 1 s and a GYR at 1.02 s are 20 ms apart, so one
IMU event at `max(1, 1.02)` is emitted and both slots are cleared. -/
theorem tryCreateIMU_pairing_witness :
    tryCreateIMU ⟨⟨1, ![1, 2, 3], true⟩, ⟨1.02, ![4, 5, 6], true⟩⟩ =
      (⟨⟨1, ![1, 2, 3], false⟩, ⟨1.02, ![4, 5, 6], false⟩⟩,
       some ⟨max (1 : ℝ) 1.02, ![4, 5, 6], ![1, 2, 3]⟩) :=
  (tryCreateIMU_pairing ⟨⟨1, ![1, 2, 3], true⟩, ⟨1.02, ![4, 5, 6], true⟩⟩
    rfl rfl).1 (by rw [abs_le]; norm_num [TIME_SYNC_THRESHOLD])

end TxtIO

namespace Offline

/-! Embedding of the offline reorganization and replay driver
(src/unnamed/part_004): `TimeStampedData`, `OfflineDataManager` and
`OfflineESKFProcessor`. -/

/-- The tag of a `TimeStampedData` variant. -/
inductive DataType
  | IMU_TYPE
  | GPS_TYPE
deriving DecidableEq

/-- `TimeStampedData`: timestamp key, tag and both payloads (the C++ struct
holds both members; the constructor for one kind leaves the other
default-constructed). -/
structure TimeStampedData where
  timestamp : ℝ
  type : DataType
  imu_data : ESKF.IMU
  gps_data : ESKF.GNSS

/-- Default-constructed IMU payload. -/
noncomputable def defaultIMU : ESKF.IMU := ⟨0, 0, 0⟩

/-- Default-constructed GNSS payload. -/
noncomputable def defaultGNSS : ESKF.GNSS := ⟨0, 0, 0, 0, false, ⟨1, 0⟩⟩

/-- The `TimeStampedData(const sad::IMU&)` constructor. -/
noncomputable def ofIMU (imu : ESKF.IMU) : TimeStampedData :=
  ⟨imu.timestamp, DataType.IMU_TYPE, imu, defaultGNSS⟩

/-- The `TimeStampedData(const sad::GNSS&)` constructor. -/
noncomputable def ofGNSS (gnss : ESKF.GNSS) : TimeStampedData :=
  ⟨gnss.unix_time, DataType.GPS_TYPE, defaultIMU, gnss⟩

/-- `TimeStampedData::operator<`: strict comparison of timestamps only. -/
def tsLt (a b : TimeStampedData) : Prop := a.timestamp < b.timestamp

/-- `OfflineDataManager::ConvertToTimeStampedData`: all IMU events first,
then all GNSS events with the configured offset added to their timestamps. -/
noncomputable def convertToTimeStampedData (imu_data : List ESKF.IMU)
    (gps_data : List ESKF.GNSS) (gps_time_offset : ℝ) : List TimeStampedData :=
  imu_data.map ofIMU ++
    gps_data.map (fun g => ofGNSS { g with unix_time := g.unix_time + gps_time_offset })

/-- Postcondition of `std::sort(all_data_.begin(), all_data_.end())` under
`TimeStampedData::operator<`: the output is some permutation of the input in
which no later element compares less than an earlier one.  The C++ standard
guarantees nothing further — `std::sort` is not stable, so the relative order
of elements with equal timestamps is unspecified. -/
def IsSortResult (l out : List TimeStampedData) : Prop :=
  List.Perm l out ∧ out.Pairwise (fun a b => ¬ tsLt b a)

/-- Relational model of `OfflineDataManager::LoadAndReorganizeData` after the
events have been read: `out` is a possible content of `all_data_` after the
conversion and the sort. -/
def ReorganizeResult (imu_data : List ESKF.IMU) (gps_data : List ESKF.GNSS)
    (offset : ℝ) (out : List TimeStampedData) : Prop :=
  IsSortResult (convertToTimeStampedData imu_data gps_data offset) out

/-- The tie-break property asserted by claim C5: no GNSS event precedes an
IMU event that carries an identical timestamp. -/
def IMUBeforeGNSSOnTies (out : List TimeStampedData) : Prop :=
  out.Pairwise (fun a b =>
    ¬ (a.type = DataType.GPS_TYPE ∧ b.type = DataType.IMU_TYPE ∧
       a.timestamp = b.timestamp))

/-- Concrete IMU sample at t = 1 used by the C5 counterexample. -/
noncomputable def imuTie : ESKF.IMU := ⟨1, 0, 0⟩

/-- Concrete GNSS fix at t = 1 used by the C5 counterexample. -/
noncomputable def gpsTie : ESKF.GNSS := ⟨1, 4, 0, 0, true, ⟨1, 0⟩⟩

/-- C5 counterexample: on the input with one IMU event and one GNSS event
both at t = 1 and offset 0, the output that lists the GNSS event first is a
legitimate result of the reorganization — it is a permutation of the
converted buffer that is sorted for `operator<` — yet it violates the claimed
IMU-before-GNSS tie-break.  (`std::sort` is not stable, so the source does
not guarantee the claimed order; spec §9 itself notes the source relies on
unspecified order here.) -/
theorem reorganize_tie_break_example :
    ReorganizeResult [imuTie] [gpsTie] 0
      [ofGNSS { gpsTie with unix_time := gpsTie.unix_time + 0 }, ofIMU imuTie]
    ∧ ¬ IMUBeforeGNSSOnTies
      [ofGNSS { gpsTie with unix_time := gpsTie.unix_time + 0 }, ofIMU imuTie] := by
  refine ⟨⟨?_, ?_⟩, ?_⟩
  · exact List.Perm.swap _ _ _
  · refine List.pairwise_cons.mpr ⟨?_, by simp⟩
    intro b hb
    rw [List.mem_singleton] at hb
    subst hb
    simp only [tsLt, ofIMU, ofGNSS, imuTie, gpsTie]
    norm_num
  · intro hcontra
    have h1 := (List.pairwise_cons.mp hcontra).1 (ofIMU imuTie) (by simp)
    exact h1 ⟨rfl, rfl, by simp [ofIMU, ofGNSS, imuTie, gpsTie]⟩

/-- C5 (amended): for every input and offset, every possible result of the
offline reorganization is sorted in non-decreasing timestamp order and
consists, as a multiset, exactly of the IMU events plus the GNSS events with
the offset added to every GNSS timestamp; in particular every GNSS event of
the output carries a shifted timestamp.  No tie-break between IMU and GNSS at
identical timestamps is guaranteed (`std::sort` is unstable; the spec fixes
IMU-first only as a specification decision, see spec §9). -/
theorem reorganize_sorted_and_offset (imu_data : List ESKF.IMU)
    (gps_data : List ESKF.GNSS) (offset : ℝ) (out : List TimeStampedData)
    (h : ReorganizeResult imu_data gps_data offset out) :
    out.Pairwise (fun a b => a.timestamp ≤ b.timestamp)
  ∧ (out : Multiset TimeStampedData) =
      (imu_data.map ofIMU : List TimeStampedData)
        + (gps_data.map (fun g => ofGNSS { g with unix_time := g.unix_time + offset }) :
            List TimeStampedData)
  ∧ ∀ e ∈ out, e.type = DataType.GPS_TYPE →
      ∃ g ∈ gps_data, e = ofGNSS { g with unix_time := g.unix_time + offset } := by
  obtain ⟨hperm, hsorted⟩ := h
  refine ⟨?_, ?_, ?_⟩
  · exact hsorted.imp fun hab => not_lt.mp hab
  · calc (out : Multiset TimeStampedData)
        = (convertToTimeStampedData imu_data gps_data offset : Multiset _) :=
          Multiset.coe_eq_coe.mpr hperm.symm
      _ = _ := by rw [convertToTimeStampedData]; exact Multiset.coe_add _ _
  · intro e he hty
    have hmem : e ∈ convertToTimeStampedData imu_data gps_data offset :=
      hperm.mem_iff.mpr he
    rw [convertToTimeStampedData, List.mem_append] at hmem
    rcases hmem with hin | hin
    · exfalso
      obtain ⟨x, _, hx⟩ := List.mem_map.mp hin
      rw [← hx] at hty
      simp [ofIMU] at hty
    · obtain ⟨g, hg, hx⟩ := List.mem_map.mp hin
      exact ⟨g, hg, hx.symm⟩

/-- Concrete IMU sample at t = 1 used by the C5 witness. -/
noncomputable def imuW : ESKF.IMU := ⟨1, 0, 0⟩

/-- Concrete GNSS fix at t = 2 used by the C5 witness. -/
noncomputable def gpsW : ESKF.GNSS := ⟨2, 4, 0, 0, true, ⟨1, 0⟩⟩

/-- Witness for C5's amended statement: the already sorted output for one IMU
at t = 1 and one GNSS at t = 2 with offset 0.5. -/
theorem reorganize_sorted_and_offset_witness :
    ([ofIMU imuW, ofGNSS { gpsW with unix_time := gpsW.unix_time + 0.5 }] :
        List TimeStampedData).Pairwise (fun a b => a.timestamp ≤ b.timestamp)
  ∧ ([ofIMU imuW, ofGNSS { gpsW with unix_time := gpsW.unix_time + 0.5 }] :
        Multiset TimeStampedData) =
      ([imuW].map ofIMU : List TimeStampedData)
        + ([gpsW].map (fun g => ofGNSS { g with unix_time := g.unix_time + 0.5 }) :
            List TimeStampedData)
  ∧ ∀ e ∈ ([ofIMU imuW, ofGNSS { gpsW with unix_time := gpsW.unix_time + 0.5 }] :
        List TimeStampedData), e.type = DataType.GPS_TYPE →
      ∃ g ∈ [gpsW], e = ofGNSS { g with unix_time := g.unix_time + 0.5 } := by
  refine reorganize_sorted_and_offset [imuW] [gpsW] 0.5 _ ⟨List.Perm.refl _, ?_⟩
  refine List.pairwise_cons.mpr ⟨?_, by simp⟩
  intro b hb
  rw [List.mem_singleton] at hb
  subst hb
  simp only [tsLt, ofIMU, ofGNSS, imuW, gpsW]
  norm_num

/-! Embedding of `OfflineESKFProcessor` and its replay loop
`ProcessReorganizedData`.  The geodetic-to-UTM conversion
(`sad::ConvertGps2UTM`, declared out of scope by the spec and not part of the
sources) is abstracted as a parameter `conv` returning `none` exactly when
the conversion fails. -/

/-- One line of the lateral-residual file. -/
structure LateralRow where
  time : ℝ
  lateral : ℝ
  heading : ℝ
  speed : ℝ
  residual_x : ℝ
  residual_y : ℝ
  residual_norm : ℝ

/-- One line of the correction file. -/
structure CorrectionRow where
  time : ℝ
  corr_x : ℝ
  corr_y : ℝ
  corr_z : ℝ
  corr_norm : ℝ
  residual_x : ℝ
  residual_y : ℝ
  residual_z : ℝ
  residual_norm : ℝ

/-- Members of an `OfflineESKFProcessor`, with its output files modelled as
the lists of rows written so far. -/
structure ProcessorState where
  eskf : ESKF.State
  first_gps_processed : Bool
  origin : ESKF.Vec3
  turn_segments : List (ℝ × ℝ)
  correction_rows : List CorrectionRow
  lateral_rows : List LateralRow

/-- Locals of `ProcessReorganizedData` plus the processor and the two files
written from the loop (trajectory rows and covariance rows). -/
structure LoopState where
  proc : ProcessorState
  latest_gps_pos : ESKF.Vec3
  has_latest_gps : Bool
  traj_rows : List (ESKF.NavState × ESKF.Vec3 × Bool)
  cov_rows : List (ℝ × (Fin 18 → ℝ))

/-- `OfflineESKFProcessor::IsInTurnSegment`. -/
noncomputable def isInTurnSegment (segs : List (ℝ × ℝ)) (t : ℝ) : Bool :=
  segs.any fun seg => decide (seg.1 ≤ t ∧ t ≤ seg.2)

/-- `OfflineESKFProcessor::ProcessIMU`: before the first successfully
converted GNSS fix it returns false immediately — no `Predict`, no covariance
row.  Afterwards it predicts and writes a covariance row on success. -/
noncomputable def processIMU (ls : LoopState) (imu : ESKF.IMU) :
    LoopState × Bool :=
  if ls.proc.first_gps_processed = false then (ls, false)
  else
    let r := ESKF.predict ls.proc.eskf imu
    let ls1 := { ls with proc := { ls.proc with eskf := r.2 } }
    if r.1 then
      ({ ls1 with cov_rows := ls1.cov_rows ++ [ESKF.saveCovariance r.2] }, true)
    else (ls1, false)

/-- `OfflineESKFProcessor::ProcessGPS`: convert (abstracted), set the origin
on the first converted fix, write the lateral row, observe — position-only
inside a turn segment, full pose otherwise — and write the correction row on
success.  Returns the success flag and the origin-relative fix position. -/
noncomputable def processGPS (conv : ESKF.GNSS → Option ESKF.GNSS)
    (ls : LoopState) (gps : ESKF.GNSS) : LoopState × Bool × ESKF.Vec3 :=
  match conv gps with
  | none => (ls, false, 0)
  | some conv_gps =>
    let proc1 :=
      if ls.proc.first_gps_processed = false then
        { ls.proc with origin := conv_gps.utm_pose.translation
                       first_gps_processed := true }
      else ls.proc
    let gps_pos := conv_gps.utm_pose.translation - proc1.origin
    let gps_c := { conv_gps with utm_pose :=
      { conv_gps.utm_pose with translation :=
          conv_gps.utm_pose.translation - proc1.origin } }
    let pos_before := (ESKF.getNominalState proc1.eskf).p
    let pos_residual := gps_c.utm_pose.translation - pos_before
    let residual_norm := ESKF.vnorm pos_residual
    let proc2 := { proc1 with lateral_rows := proc1.lateral_rows ++
      ([⟨gps.unix_time, ESKF.computeLateralResidual proc1.eskf pos_residual,
         ESKF.getCurrentHeading proc1.eskf,
         ESKF.vnorm (ESKF.getNominalState proc1.eskf).v,
         pos_residual 0, pos_residual 1, residual_norm⟩] : List LateralRow) }
    let obs :=
      if isInTurnSegment proc2.turn_segments gps.unix_time then
        ESKF.observePositionOnlyGnss proc2.eskf gps_c
      else ESKF.observeGps proc2.eskf gps_c
    let proc3 := { proc2 with eskf := obs.2 }
    if obs.1 then
      let pos_correction := (ESKF.getNominalState proc3.eskf).p - pos_before
      let proc4 := { proc3 with correction_rows := proc3.correction_rows ++
        ([⟨gps.unix_time, pos_correction 0, pos_correction 1, pos_correction 2,
           ESKF.vnorm pos_correction, pos_residual 0, pos_residual 1,
           pos_residual 2, residual_norm⟩] : List CorrectionRow) }
      ({ ls with proc := proc4 }, true, gps_pos)
    else ({ ls with proc := proc3 }, false, gps_pos)

/-- Loop body of `OfflineESKFProcessor::ProcessReorganizedData`: a trajectory
row after each successful IMU step, and the latest fix position plus a
covariance row after each successful GNSS step. -/
noncomputable def processEvent (conv : ESKF.GNSS → Option ESKF.GNSS)
    (ls : LoopState) (e : TimeStampedData) : LoopState :=
  if e.type = DataType.IMU_TYPE then
    let r := processIMU ls e.imu_data
    if r.2 then
      { r.1 with traj_rows := r.1.traj_rows ++
        [(ESKF.getNominalState r.1.proc.eskf, r.1.latest_gps_pos,
          r.1.has_latest_gps)] }
    else r.1
  else
    let r := processGPS conv ls e.gps_data
    if r.2.1 then
      { r.1 with latest_gps_pos := r.2.2, has_latest_gps := true
                 cov_rows := r.1.cov_rows ++
                   [ESKF.saveCovariance r.1.proc.eskf] }
    else r.1

/-- `OfflineESKFProcessor::ProcessReorganizedData` over the event vector. -/
noncomputable def processReorganizedData (conv : ESKF.GNSS → Option ESKF.GNSS)
    (ls : LoopState) (events : List TimeStampedData) : LoopState :=
  events.foldl (processEvent conv) ls

/-- C10: while no GNSS fix has been successfully converted, every IMU event
is discarded: `ProcessIMU` returns false leaving the whole processor state —
including the ESKF, so `Predict` is never run — and the output rows
untouched; consequently a whole event prefix of IMU events and
failing-conversion GNSS events leaves the replay state unchanged.  Filter
propagation can begin only once a converted fix has set
`first_gps_processed_` and the local origin. -/
theorem imu_before_first_gps_discarded (conv : ESKF.GNSS → Option ESKF.GNSS)
    (ls : LoopState) (h : ls.proc.first_gps_processed = false) :
    (∀ imu, processIMU ls imu = (ls, false))
  ∧ ∀ events : List TimeStampedData,
      (∀ e ∈ events, e.type = DataType.IMU_TYPE ∨ conv e.gps_data = none) →
      processReorganizedData conv ls events = ls := by
  have hstep : ∀ e : TimeStampedData,
      (e.type = DataType.IMU_TYPE ∨ conv e.gps_data = none) →
      processEvent conv ls e = ls := by
    intro e he
    by_cases hty : e.type = DataType.IMU_TYPE
    · simp [processEvent, hty, processIMU, h]
    · rcases he with he | he
      · exact absurd he hty
      · simp [processEvent, hty, processGPS, he]
  refine ⟨fun imu => by simp [processIMU, h], ?_⟩
  intro events
  induction events with
  | nil => intro _; rfl
  | cons e es ih =>
    intro hev
    have h1 : processEvent conv ls e = ls :=
      hstep e (hev e (List.mem_cons_self e es))
    calc processReorganizedData conv ls (e :: es)
        = processReorganizedData conv (processEvent conv ls e) es := rfl
      _ = processReorganizedData conv ls es := by rw [h1]
      _ = ls := ih fun e' he' => hev e' (List.mem_cons_of_mem e he')

/-- A concrete replay state whose processor has not yet seen a converted fix. -/
noncomputable def lsFresh : LoopState :=
  ⟨⟨ESKF.stFresh, false, 0, [], [], []⟩, 0, false, [], []⟩

/-- Witness for C10: with a conversion that always fails and a fresh replay
state, one IMU event followed by one GNSS event leaves the state unchanged,
and a single IMU event is discarded with a false return. -/
theorem imu_before_first_gps_discarded_witness :
    processIMU lsFresh imuW = (lsFresh, false)
    ∧ processReorganizedData (fun _ => none) lsFresh
        [ofIMU imuW, ofGNSS gpsW] = lsFresh := by
  have h := imu_before_first_gps_discarded (fun _ => none) lsFresh rfl
  exact ⟨h.1 imuW, h.2 [ofIMU imuW, ofGNSS gpsW] (fun e _ => Or.inr rfl)⟩

end Offline

namespace TurnDetector

/-! Embedding of the turn detector (src/unnamed/part_003, header
src/src/ch3/turn_detector.h). -/

/-- `TurnDetector::HeadingDataPoint`. -/
structure HeadingDataPoint where
  timestamp : ℝ
  heading : ℝ

/-- `TurnDetector::TurnRatePoint`. -/
structure TurnRatePoint where
  timestamp : ℝ
  turn_rate : ℝ

/-- `TurnDetector::TurnSegment`. -/
structure TurnSegment where
  start_time : ℝ
  end_time : ℝ
  total_angle : ℝ
  avg_turn_rate : ℝ
  direction : String

/-- `TurnDetector::Config` (the window size is a non-negative `int`). -/
structure Config where
  start_turn_rate_threshold : ℝ
  end_turn_rate_threshold : ℝ
  end_duration_threshold : ℝ
  accumulated_angle_threshold : ℝ
  smoothing_window_size : ℕ

/-- The heading sanitization of `TurnDetector::AddHeadingData`
(`while (heading < 0) heading += 360; while (heading >= 360) heading -= 360`):
the loops compute the unique representative of `heading` modulo 360 inside
`[0, 360)`, which is `heading - 360 * floor(heading / 360)`
(see `normalizeHeading_nonneg`, `normalizeHeading_lt`,
`normalizeHeading_sub_int`: these three properties pin the value down
uniquely). -/
noncomputable def normalizeHeading (h : ℝ) : ℝ :=
  h - 360 * (⌊h / 360⌋ : ℤ)

/-- `TurnDetector::NormalizeHeadingDiff`: wrap `h2 - h1` into `(-180, 180]`. -/
noncomputable def normalizeHeadingDiff (h1 h2 : ℝ) : ℝ :=
  if h2 - h1 > 180 then h2 - h1 - 360
  else if h2 - h1 ≤ -180 then h2 - h1 + 360
  else h2 - h1

/-- `TurnDetector::CalculateTurnRates`: per consecutive pair with positive
`dt`, the wrapped heading difference divided by `dt`, stamped with the later
timestamp; non-positive `dt` pairs are skipped. -/
noncomputable def calculateTurnRates : List HeadingDataPoint → List TurnRatePoint
  | [] => []
  | [_] => []
  | prev :: curr :: rest =>
    (if curr.timestamp - prev.timestamp ≤ 0 then []
     else [⟨curr.timestamp,
            normalizeHeadingDiff prev.heading curr.heading
              / (curr.timestamp - prev.timestamp)⟩])
      ++ calculateTurnRates (curr :: rest)

/-- One output point of `TurnDetector::SmoothTurnRates`: centred moving
average over the index window `[i - w/2, min(n, i + w/2 + 1))`, original
timestamp kept. -/
noncomputable def smoothAt (cfg : Config) (trs : List TurnRatePoint) (i : ℕ) :
    TurnRatePoint :=
  let start_idx := i - cfg.smoothing_window_size / 2
  let end_idx := min trs.length (i + cfg.smoothing_window_size / 2 + 1)
  let window := (trs.drop start_idx).take (end_idx - start_idx)
  ⟨(trs.getD i ⟨0, 0⟩).timestamp,
   if 0 < window.length then
     (window.map fun p => p.turn_rate).sum / (window.length : ℝ)
   else 0⟩

/-- `TurnDetector::SmoothTurnRates`: identity when there are fewer points
than the window size, otherwise the centred moving average. -/
noncomputable def smoothTurnRates (cfg : Config) (trs : List TurnRatePoint) :
    List TurnRatePoint :=
  if trs.length < cfg.smoothing_window_size then trs
  else (List.range trs.length).map (smoothAt cfg trs)

/-- The loop-local state of `TurnDetector::DetectTurnSegments`. -/
structure DetectState where
  in_turn : Bool
  in_end_timing : Bool
  turn_start_idx : ℕ
  accumulated_angle : ℝ
  turn_rates_list : List ℝ
  turn_direction : String
  end_timing_start : ℝ
  detected : List TurnSegment

/-- `TurnDetector::RecordTurnSegment`: segment from the timestamps at the
start and end indices, the accumulated angle, the mean absolute rate of the
collected rate history and the direction label. -/
noncomputable def recordTurnSegment (sr : List TurnRatePoint)
    (start_idx end_idx : ℕ) (accumulated_angle : ℝ) (lst : List ℝ)
    (dir : String) : TurnSegment :=
  ⟨(sr.getD start_idx ⟨0, 0⟩).timestamp, (sr.getD end_idx ⟨0, 0⟩).timestamp,
   accumulated_angle,
   if lst = [] then 0 else (lst.map fun r => |r|).sum / (lst.length : ℝ),
   dir⟩

/-- The `if (i > 0) {...}` body of the accumulating state: accumulate the
absolute angle increment when the rate sign matches the current direction;
on a clear sign flip (`|rate|` above the start threshold) record the segment
if enough angle accumulated and restart with the new direction. -/
noncomputable def accumulateOrReset (cfg : Config) (sr : List TurnRatePoint)
    (i : ℕ) (s : DetectState) : DetectState :=
  let timestamp := (sr.getD i ⟨0, 0⟩).timestamp
  let turn_rate := (sr.getD i ⟨0, 0⟩).turn_rate
  let angle_change := turn_rate * (timestamp - (sr.getD (i - 1) ⟨0, 0⟩).timestamp)
  if (s.turn_direction = "左转" ∧ turn_rate > 0)
      ∨ (s.turn_direction = "右转" ∧ turn_rate < 0) then
    { s with accumulated_angle := s.accumulated_angle + |angle_change| }
  else if |turn_rate| > cfg.start_turn_rate_threshold then
    let s1 :=
      if s.accumulated_angle ≥ cfg.accumulated_angle_threshold then
        { s with detected := s.detected ++
          [recordTurnSegment sr s.turn_start_idx (i - 1) s.accumulated_angle
            s.turn_rates_list s.turn_direction] }
      else s
    { s1 with turn_start_idx := i, accumulated_angle := |angle_change|
              turn_rates_list := [turn_rate]
              turn_direction := if turn_rate > 0 then "左转" else "右转" }
  else s

/-- One loop iteration of `TurnDetector::DetectTurnSegments` at index `i`
over the smoothed rates `sr` (three-state machine: listening, accumulating,
end timing).  Note the source pushes the rate into the history once more
after a direction reset, and that behaviour is kept. -/
noncomputable def detectStep (cfg : Config) (sr : List TurnRatePoint)
    (s : DetectState) (i : ℕ) : DetectState :=
  let timestamp := (sr.getD i ⟨0, 0⟩).timestamp
  let turn_rate := (sr.getD i ⟨0, 0⟩).turn_rate
  let abs_rate := |turn_rate|
  if s.in_turn = false then
    if abs_rate > cfg.start_turn_rate_threshold then
      { s with in_turn := true, in_end_timing := false, turn_start_idx := i
               accumulated_angle := 0, turn_rates_list := [turn_rate]
               turn_direction := if turn_rate > 0 then "左转" else "右转" }
    else s
  else if s.in_end_timing = false then
    if abs_rate > cfg.end_turn_rate_threshold then
      let s1 := if 0 < i then accumulateOrReset cfg sr i s else s
      { s1 with turn_rates_list := s1.turn_rates_list ++ [turn_rate] }
    else
      { s with in_end_timing := true, end_timing_start := timestamp }
  else
    if abs_rate ≤ cfg.end_turn_rate_threshold then
      if timestamp - s.end_timing_start ≥ cfg.end_duration_threshold then
        let s1 :=
          if s.accumulated_angle ≥ cfg.accumulated_angle_threshold then
            { s with detected := s.detected ++
              [recordTurnSegment sr s.turn_start_idx i s.accumulated_angle
                s.turn_rates_list s.turn_direction] }
          else s
        { s1 with in_turn := false, in_end_timing := false }
      else s
    else
      let s1 := { s with in_end_timing := false }
      let s2 :=
        if 0 < i then
          let angle_change := turn_rate *
            (timestamp - (sr.getD (i - 1) ⟨0, 0⟩).timestamp)
          if (s1.turn_direction = "左转" ∧ turn_rate > 0)
              ∨ (s1.turn_direction = "右转" ∧ turn_rate < 0) then
            { s1 with accumulated_angle := s1.accumulated_angle + |angle_change| }
          else s1
        else s1
      { s2 with turn_rates_list := s2.turn_rates_list ++ [turn_rate] }

open Classical in
/-- `TurnDetector::DetectTurnSegments`: smooth, run the state machine over
all indices, and emit the pending segment at end of stream when enough angle
accumulated. -/
noncomputable def detectTurnSegments (cfg : Config)
    (turn_rates : List TurnRatePoint) : List TurnSegment :=
  if turn_rates = [] then []
  else
    let sr := smoothTurnRates cfg turn_rates
    let s := (List.range sr.length).foldl (detectStep cfg sr)
      ⟨false, false, 0, 0, [], "", 0, []⟩
    s.detected ++
      (if s.in_turn = true ∧ ¬ sr = []
          ∧ s.accumulated_angle ≥ cfg.accumulated_angle_threshold then
        [recordTurnSegment sr s.turn_start_idx (sr.length - 1)
          s.accumulated_angle s.turn_rates_list s.turn_direction]
      else [])

/-- The normalization pass of `TurnDetector::AddHeadingData` over a whole
sample stream. -/
noncomputable def addHeadingData (samples : List HeadingDataPoint) :
    List HeadingDataPoint :=
  samples.map fun s => ⟨s.timestamp, normalizeHeading s.heading⟩

/-- The timestamp sort of `TurnDetector::Finalize`
(`std::sort` with comparator `a.timestamp < b.timestamp`), modelled with a
deterministic conforming sort.  The comparator consults only timestamps, so
the permutation any conforming implementation applies depends only on the
timestamp sequence — the property the proofs rely on. -/
noncomputable def sortHeading (l : List HeadingDataPoint) :
    List HeadingDataPoint :=
  l.insertionSort fun a b => a.timestamp ≤ b.timestamp

/-- `TurnDetector::Finalize` up to its emitted segment list: fewer than two
samples produce no segments; otherwise sort, compute rates, smooth and run
the detector. -/
noncomputable def detectorSegments (cfg : Config)
    (samples : List HeadingDataPoint) : List TurnSegment :=
  if (addHeadingData samples).length < 2 then []
  else detectTurnSegments cfg
    (calculateTurnRates (sortHeading (addHeadingData samples)))

/-- The sanitized heading is non-negative. -/
theorem normalizeHeading_nonneg (h : ℝ) : 0 ≤ normalizeHeading h := by
  have h1 : (⌊h / 360⌋ : ℝ) ≤ h / 360 := Int.floor_le _
  have h2 := mul_le_mul_of_nonneg_right h1 (by norm_num : (0 : ℝ) ≤ 360)
  have h3 : h / 360 * 360 = h := div_mul_cancel₀ h (by norm_num)
  unfold normalizeHeading
  linarith

/-- The sanitized heading is below 360. -/
theorem normalizeHeading_lt (h : ℝ) : normalizeHeading h < 360 := by
  have h1 : h / 360 < ⌊h / 360⌋ + 1 := Int.lt_floor_add_one _
  have h2 := mul_lt_mul_of_pos_right h1 (by norm_num : (0 : ℝ) < 360)
  have h3 : h / 360 * 360 = h := div_mul_cancel₀ h (by norm_num)
  unfold normalizeHeading
  nlinarith

/-- Sanitizing changes the heading by an integer multiple of 360. -/
theorem normalizeHeading_sub_int (h : ℝ) :
    ∃ k : ℤ, normalizeHeading h = h + 360 * k :=
  ⟨-⌊h / 360⌋, by unfold normalizeHeading; push_cast; ring⟩

/-- Two reals less than 360 apart that differ by an integer multiple of 360
are equal. -/
theorem eq_of_band (x y : ℝ) (h1 : -360 < x - y) (h2 : x - y < 360)
    (k : ℤ) (hk : x - y = 360 * k) : x = y := by
  have hk1 : (-1 : ℝ) < (k : ℝ) := by
    rw [hk] at h1; linarith
  have hk2 : (k : ℝ) < 1 := by
    rw [hk] at h2; linarith
  have l1 : (-1 : ℤ) < k := by exact_mod_cast hk1
  have l2 : k < 1 := by exact_mod_cast hk2
  have hk0 : k = 0 := by omega
  rw [hk0] at hk
  push_cast at hk
  linarith

/-- Sanitizing an offset heading equals sanitizing the offset of the already
sanitized heading: only the residue modulo 360 matters. -/
theorem normalizeHeading_shift (h c : ℝ) :
    normalizeHeading (h + c) = normalizeHeading (normalizeHeading h + c) := by
  obtain ⟨k1, hk1⟩ := normalizeHeading_sub_int (h + c)
  obtain ⟨k2, hk2⟩ := normalizeHeading_sub_int h
  obtain ⟨k3, hk3⟩ := normalizeHeading_sub_int (normalizeHeading h + c)
  have b1 := normalizeHeading_nonneg (h + c)
  have b2 := normalizeHeading_lt (h + c)
  have b3 := normalizeHeading_nonneg (normalizeHeading h + c)
  have b4 := normalizeHeading_lt (normalizeHeading h + c)
  refine eq_of_band _ _ (by linarith) (by linarith) (k1 - k2 - k3) ?_
  rw [hk1, hk3, hk2]
  push_cast
  ring

/-- The wrapped difference lies in `(-180, 180]` and keeps the residue of
`h2 - h1` modulo 360, for inputs less than a full turn apart. -/
theorem ndiff_mem (h1 h2 : ℝ) (hl : -360 < h2 - h1) (hr : h2 - h1 < 360) :
    (-180 < normalizeHeadingDiff h1 h2 ∧ normalizeHeadingDiff h1 h2 ≤ 180)
    ∧ ∃ k : ℤ, normalizeHeadingDiff h1 h2 = (h2 - h1) + 360 * k := by
  unfold normalizeHeadingDiff
  split_ifs with ha hb
  · exact ⟨⟨by linarith, by linarith⟩, ⟨-1, by push_cast; ring⟩⟩
  · exact ⟨⟨by linarith, by linarith⟩, ⟨1, by push_cast; ring⟩⟩
  · exact ⟨⟨by linarith, by linarith⟩, ⟨0, by push_cast; ring⟩⟩

/-- Wrapped differences of sanitized headings are invariant under a common
offset `c` applied before sanitizing. -/
theorem ndiff_shift (a b c : ℝ) (ha0 : 0 ≤ a) (ha1 : a < 360)
    (hb0 : 0 ≤ b) (hb1 : b < 360) :
    normalizeHeadingDiff (normalizeHeading (a + c)) (normalizeHeading (b + c))
      = normalizeHeadingDiff a b := by
  have hA0 := normalizeHeading_nonneg (a + c)
  have hA1 := normalizeHeading_lt (a + c)
  have hB0 := normalizeHeading_nonneg (b + c)
  have hB1 := normalizeHeading_lt (b + c)
  obtain ⟨⟨p1, p2⟩, k1, hk1⟩ :=
    ndiff_mem (normalizeHeading (a + c)) (normalizeHeading (b + c))
      (by linarith) (by linarith)
  obtain ⟨⟨q1, q2⟩, k2, hk2⟩ := ndiff_mem a b (by linarith) (by linarith)
  obtain ⟨ka, hka⟩ := normalizeHeading_sub_int (a + c)
  obtain ⟨kb, hkb⟩ := normalizeHeading_sub_int (b + c)
  refine eq_of_band _ _ (by linarith) (by linarith) (kb - ka + k1 - k2) ?_
  rw [hk1, hk2, hka, hkb]
  push_cast
  ring

/-- The turn-rate sequence is unchanged when a common offset is applied (and
sanitized) on a stream whose headings are already sanitized: timestamps are
untouched and each wrapped difference is invariant. -/
theorem calculateTurnRates_shift (c : ℝ) :
    ∀ m : List HeadingDataPoint,
      (∀ x ∈ m, 0 ≤ x.heading ∧ x.heading < 360) →
      calculateTurnRates
          (m.map fun q => ⟨q.timestamp, normalizeHeading (q.heading + c)⟩)
        = calculateTurnRates m := by
  intro m
  induction m with
  | nil => intro _; rfl
  | cons p m ih =>
    cases m with
    | nil => intro _; rfl
    | cons q rest =>
      intro hmem
      have hp := hmem p (by simp)
      have hq := hmem q (by simp)
      simp only [List.map_cons]
      show (if q.timestamp - p.timestamp ≤ 0 then []
            else [⟨q.timestamp,
              normalizeHeadingDiff (normalizeHeading (p.heading + c))
                  (normalizeHeading (q.heading + c))
                / (q.timestamp - p.timestamp)⟩])
          ++ calculateTurnRates
              ((q :: rest).map fun x => ⟨x.timestamp, normalizeHeading (x.heading + c)⟩)
        = (if q.timestamp - p.timestamp ≤ 0 then []
            else [⟨q.timestamp,
              normalizeHeadingDiff p.heading q.heading
                / (q.timestamp - p.timestamp)⟩])
          ++ calculateTurnRates (q :: rest)
      rw [ndiff_shift p.heading q.heading c hp.1 hp.2 hq.1 hq.2]
      rw [ih fun x hx => hmem x (List.mem_cons_of_mem p hx)]

/-- `orderedInsert` commutes with mapping a timestamp-preserving function:
the comparator reads only timestamps. -/
theorem orderedInsert_timestamp_map (f : HeadingDataPoint → HeadingDataPoint)
    (hf : ∀ x, (f x).timestamp = x.timestamp) (a : HeadingDataPoint) :
    ∀ l : List HeadingDataPoint,
      List.orderedInsert (fun u v : HeadingDataPoint => u.timestamp ≤ v.timestamp)
          (f a) (l.map f)
        = (List.orderedInsert (fun u v => u.timestamp ≤ v.timestamp) a l).map f := by
  intro l
  induction l with
  | nil => rfl
  | cons b l ih =>
    simp only [List.map_cons, List.orderedInsert]
    by_cases hab : a.timestamp ≤ b.timestamp
    · rw [if_pos (by rw [hf, hf]; exact hab), if_pos hab, List.map_cons,
        List.map_cons]
    · rw [if_neg (by rw [hf, hf]; exact hab), if_neg hab, List.map_cons, ih]

/-- The `Finalize` sort commutes with mapping a timestamp-preserving
function. -/
theorem sortHeading_map (f : HeadingDataPoint → HeadingDataPoint)
    (hf : ∀ x, (f x).timestamp = x.timestamp) :
    ∀ l : List HeadingDataPoint, sortHeading (l.map f) = (sortHeading l).map f := by
  intro l
  induction l with
  | nil => rfl
  | cons a l ih =>
    show List.orderedInsert _ (f a) (sortHeading (l.map f))
        = (List.orderedInsert _ a (sortHeading l)).map f
    rw [ih]
    exact orderedInsert_timestamp_map f hf a (sortHeading l)

/-- All headings in the sorted normalized stream lie in `[0, 360)`. -/
theorem sorted_data_normalized (samples : List HeadingDataPoint) :
    ∀ x ∈ sortHeading (addHeadingData samples),
      0 ≤ x.heading ∧ x.heading < 360 := by
  intro x hx
  have hx2 : x ∈ addHeadingData samples :=
    (List.Perm.mem_iff (List.perm_insertionSort _ _)).mp hx
  obtain ⟨s, _, rfl⟩ := List.mem_map.mp hx2
  exact ⟨normalizeHeading_nonneg _, normalizeHeading_lt _⟩

/-- C6: for every heading-sample sequence and every constant offset `c`,
adding `c` to every heading before feeding the samples to the turn detector
leaves the detector's emitted segment list — start times, end times,
cumulative angles, average rates, directions — unchanged: headings are
sanitized into `[0, 360)` and the rates are computed from wrapped
differences, which are invariant under a common offset; everything
downstream (smoothing and the three-state machine) reads only timestamps and
rates. -/
theorem detect_heading_offset_invariant (cfg : Config)
    (samples : List HeadingDataPoint) (c : ℝ) :
    detectorSegments cfg (samples.map fun s => ⟨s.timestamp, s.heading + c⟩)
      = detectorSegments cfg samples := by
  have hdata : addHeadingData (samples.map fun s => ⟨s.timestamp, s.heading + c⟩)
      = (addHeadingData samples).map
          fun q => ⟨q.timestamp, normalizeHeading (q.heading + c)⟩ := by
    unfold addHeadingData
    rw [List.map_map, List.map_map]
    apply List.map_congr_left
    intro s _
    show (⟨s.timestamp, normalizeHeading (s.heading + c)⟩ : HeadingDataPoint)
        = ⟨s.timestamp, normalizeHeading (normalizeHeading s.heading + c)⟩
    rw [normalizeHeading_shift]
  unfold detectorSegments
  rw [hdata, List.length_map]
  by_cases hlen : (addHeadingData samples).length < 2
  · rw [if_pos hlen, if_pos hlen]
  · rw [if_neg hlen, if_neg hlen,
      sortHeading_map (fun q => ⟨q.timestamp, normalizeHeading (q.heading + c)⟩)
        (fun x => rfl) (addHeadingData samples),
      calculateTurnRates_shift c _ (sorted_data_normalized samples)]

end TurnDetector

namespace ESKF

/-! Block-matrix infrastructure for evaluating the filter's covariance on a
concrete trace: a 3x3 block embedded at row offset `r` and column offset `c`
of an otherwise zero matrix, with the algebra of such embeddings.  The
matrices produced by `Predict` and the observation models are sums of such
embeddings, which keeps the 18-dimensional arithmetic symbolic. -/

/-- A 3x3 block placed at rows `[r, r+3)` and columns `[c, c+3)` of an
otherwise zero `m x n` matrix. -/
def blockEmbed {m n : ℕ} (r c : ℕ) (B : Mat3) : Matrix (Fin m) (Fin n) ℝ :=
  Matrix.of fun i j =>
    if h : r ≤ i.val ∧ i.val < r + 3 ∧ c ≤ j.val ∧ j.val < c + 3 then
      B ⟨i.val - r, by omega⟩ ⟨j.val - c, by omega⟩
    else 0

theorem blockEmbed_apply_in {m n : ℕ} (r c : ℕ) (B : Mat3)
    (i : Fin m) (j : Fin n) (h1 : r ≤ i.val) (h2 : i.val < r + 3)
    (h3 : c ≤ j.val) (h4 : j.val < c + 3) :
    blockEmbed r c B i j = B ⟨i.val - r, by omega⟩ ⟨j.val - c, by omega⟩ :=
  dif_pos ⟨h1, h2, h3, h4⟩

theorem blockEmbed_apply_out {m n : ℕ} (r c : ℕ) (B : Mat3)
    (i : Fin m) (j : Fin n)
    (h : ¬ (r ≤ i.val ∧ i.val < r + 3 ∧ c ≤ j.val ∧ j.val < c + 3)) :
    blockEmbed r c B i j = 0 :=
  dif_neg h

theorem blockEmbed_row_out {m n : ℕ} (r c : ℕ) (B : Mat3)
    (i : Fin m) (j : Fin n) (h : i.val < r ∨ r + 3 ≤ i.val) :
    blockEmbed r c B i j = 0 :=
  blockEmbed_apply_out r c B i j (by rintro ⟨a1, a2, -, -⟩; omega)

/-- A sum over `Fin m` whose support lies in the window `[c, c+3)` collapses
to its three window terms. -/
theorem sum_window {m : ℕ} (c : ℕ) (hc : c + 3 ≤ m) (f : Fin m → ℝ)
    (hf : ∀ k : Fin m, k.val < c ∨ c + 3 ≤ k.val → f k = 0) :
    Finset.univ.sum f
      = f ⟨c, by omega⟩ + f ⟨c + 1, by omega⟩ + f ⟨c + 2, by omega⟩ := by
  classical
  have hsub : ({⟨c, by omega⟩, ⟨c + 1, by omega⟩, ⟨c + 2, by omega⟩} :
      Finset (Fin m)) ⊆ Finset.univ := Finset.subset_univ _
  rw [← Finset.sum_subset hsub]
  · rw [Finset.sum_insert, Finset.sum_insert, Finset.sum_singleton, add_assoc]
    · simp only [Finset.mem_singleton]
      intro hcon
      have := congrArg Fin.val hcon
      simp only [] at this
      omega
    · simp only [Finset.mem_insert, Finset.mem_singleton]
      rintro (hcon | hcon) <;>
        (have hvv := congrArg Fin.val hcon; simp only [] at hvv; omega)
  · intro x _ hx
    apply hf
    simp only [Finset.mem_insert, Finset.mem_singleton] at hx
    by_contra hcon
    push_neg at hcon
    apply hx
    have : x.val = c ∨ x.val = c + 1 ∨ x.val = c + 2 := by omega
    rcases this with h | h | h
    · exact Or.inl (Fin.ext h)
    · exact Or.inr (Or.inl (Fin.ext h))
    · exact Or.inr (Or.inr (Fin.ext h))

/-- Aligned embeddings multiply blockwise. -/
theorem blockEmbed_mul {l m n : ℕ} (r c c' : ℕ) (B B' : Mat3)
    (hm : c + 3 ≤ m) :
    (blockEmbed r c B : Matrix (Fin l) (Fin m) ℝ)
        * (blockEmbed c c' B' : Matrix (Fin m) (Fin n) ℝ)
      = blockEmbed r c' (B * B') := by
  ext i j
  rw [Matrix.mul_apply]
  by_cases hrow : r ≤ i.val ∧ i.val < r + 3
  · by_cases hcol : c' ≤ j.val ∧ j.val < c' + 3
    · rw [blockEmbed_apply_in r c' (B * B') i j hrow.1 hrow.2 hcol.1 hcol.2,
        Matrix.mul_apply]
      rw [sum_window c hm _ ?_]
      · have e0 : ∀ t h3 h4,
            (blockEmbed r c B : Matrix (Fin l) (Fin m) ℝ) i ⟨c + t, h3⟩
              * (blockEmbed c c' B' : Matrix (Fin m) (Fin n) ℝ) ⟨c + t, h3⟩ j
            = B ⟨i.val - r, by omega⟩ ⟨t, h4⟩ * B' ⟨t, h4⟩ ⟨j.val - c', by omega⟩ := by
          intro t h3 h4
          rw [blockEmbed_apply_in r c B i ⟨c + t, h3⟩ hrow.1 hrow.2
              (by simp) (by simp; omega),
            blockEmbed_apply_in c c' B' ⟨c + t, h3⟩ j (by simp)
              (by simp; omega) hcol.1 hcol.2]
          congr 2 <;> simp
        have h0 := e0 0 (by omega) (by omega)
        have h1 := e0 1 (by omega) (by omega)
        have h2 := e0 2 (by omega) (by omega)
        simp only [Nat.add_zero] at h0
        rw [h0, h1, h2, Fin.sum_univ_three]
        rfl
      · intro k hk
        rcases hk with hk | hk
        · rw [blockEmbed_apply_out r c B i k (by rintro ⟨-, -, b1, -⟩; omega),
            zero_mul]
        · rw [blockEmbed_apply_out r c B i k (by rintro ⟨-, -, -, b2⟩; omega),
            zero_mul]
    · rw [blockEmbed_apply_out r c' (B * B') i j (by rintro ⟨-, -, b1, b2⟩; exact hcol ⟨b1, b2⟩)]
      apply Finset.sum_eq_zero
      intro k _
      rw [blockEmbed_apply_out c c' B' k j (by rintro ⟨-, -, b1, b2⟩; exact hcol ⟨b1, b2⟩),
        mul_zero]
  · rw [blockEmbed_apply_out r c' (B * B') i j (by rintro ⟨a1, a2, -, -⟩; exact hrow ⟨a1, a2⟩)]
    apply Finset.sum_eq_zero
    intro k _
    rw [blockEmbed_apply_out r c B i k (by rintro ⟨a1, a2, -, -⟩; exact hrow ⟨a1, a2⟩),
      zero_mul]

/-- Misaligned embeddings multiply to zero. -/
theorem blockEmbed_mul_disjoint {l m n : ℕ} (r c r' c' : ℕ) (B B' : Mat3)
    (hd : c + 3 ≤ r' ∨ r' + 3 ≤ c) :
    (blockEmbed r c B : Matrix (Fin l) (Fin m) ℝ)
        * (blockEmbed r' c' B' : Matrix (Fin m) (Fin n) ℝ) = 0 := by
  ext i j
  rw [Matrix.mul_apply, Matrix.zero_apply]
  apply Finset.sum_eq_zero
  intro k _
  by_cases hk : c ≤ k.val ∧ k.val < c + 3
  · rw [blockEmbed_apply_out r' c' B' k j (by rintro ⟨b1, b2, -, -⟩; omega),
      mul_zero]
  · rw [blockEmbed_apply_out r c B i k (by rintro ⟨-, -, b1, b2⟩; exact hk ⟨b1, b2⟩),
      zero_mul]

theorem blockEmbed_transpose {m n : ℕ} (r c : ℕ) (B : Mat3) :
    (blockEmbed r c B : Matrix (Fin m) (Fin n) ℝ).transpose
      = blockEmbed c r B.transpose := by
  ext i j
  rw [Matrix.transpose_apply]
  by_cases h : c ≤ i.val ∧ i.val < c + 3 ∧ r ≤ j.val ∧ j.val < r + 3
  · rw [blockEmbed_apply_in r c B j i h.2.2.1 h.2.2.2 h.1 h.2.1,
      blockEmbed_apply_in c r B.transpose i j h.1 h.2.1 h.2.2.1 h.2.2.2,
      Matrix.transpose_apply]
  · rw [blockEmbed_apply_out c r B.transpose i j h,
      blockEmbed_apply_out r c B j i (by rintro ⟨b1, b2, b3, b4⟩; exact h ⟨b3, b4, b1, b2⟩)]

/-- A full 3x3 embedding is the block itself. -/
theorem blockEmbed_id3 (B : Mat3) : (blockEmbed 0 0 B : Mat3) = B := by
  ext i j
  rw [blockEmbed_apply_in 0 0 B i j (by omega) (by omega) (by omega) (by omega)]
  congr

/-- Applying an embedding that spans all three columns to a 3-vector, inside
its row range. -/
theorem blockEmbed_mulVec_in {m : ℕ} (r : ℕ) (B : Mat3) (v : Vec3)
    (i : Fin m) (h1 : r ≤ i.val) (h2 : i.val < r + 3) :
    (blockEmbed r 0 B : Matrix (Fin m) (Fin 3) ℝ).mulVec v i
      = B.mulVec v ⟨i.val - r, by omega⟩ := by
  rw [Matrix.mulVec, Matrix.mulVec, Matrix.dotProduct, Matrix.dotProduct]
  apply Finset.sum_congr rfl
  intro j _
  rw [blockEmbed_apply_in r 0 B i j h1 h2 (by omega) (by omega)]
  congr

/-- Applying an embedding to a 3-vector outside its row range gives zero. -/
theorem blockEmbed_mulVec_out {m : ℕ} (r : ℕ) (B : Mat3) (v : Vec3)
    (i : Fin m) (h : i.val < r ∨ r + 3 ≤ i.val) :
    (blockEmbed r 0 B : Matrix (Fin m) (Fin 3) ℝ).mulVec v i = 0 := by
  rw [Matrix.mulVec, Matrix.dotProduct]
  apply Finset.sum_eq_zero
  intro j _
  rw [blockEmbed_row_out r 0 B i j h, zero_mul]

theorem blockEmbed_col_out {m n : ℕ} (r c : ℕ) (B : Mat3)
    (i : Fin m) (j : Fin n) (h : j.val < c ∨ c + 3 ≤ j.val) :
    blockEmbed r c B i j = 0 :=
  blockEmbed_apply_out r c B i j (by rintro ⟨-, -, b3, b4⟩; omega)

theorem insertBlock_apply_in {m n : ℕ} (M : Matrix (Fin m) (Fin n) ℝ)
    (r c : ℕ) (B : Mat3) (i : Fin m) (j : Fin n)
    (h1 : r ≤ i.val) (h2 : i.val < r + 3) (h3 : c ≤ j.val) (h4 : j.val < c + 3) :
    insertBlock M r c B i j = B ⟨i.val - r, by omega⟩ ⟨j.val - c, by omega⟩ :=
  dif_pos ⟨h1, h2, h3, h4⟩

theorem insertBlock_apply_out {m n : ℕ} (M : Matrix (Fin m) (Fin n) ℝ)
    (r c : ℕ) (B : Mat3) (i : Fin m) (j : Fin n)
    (h : ¬ (r ≤ i.val ∧ i.val < r + 3 ∧ c ≤ j.val ∧ j.val < c + 3)) :
    insertBlock M r c B i j = M i j :=
  dif_neg h

/-- An Eigen block write into a region where the target is zero is the sum
with a block embedding. -/
theorem insertBlock_eq_add {m n : ℕ} (M : Matrix (Fin m) (Fin n) ℝ)
    (r c : ℕ) (B : Mat3)
    (hz : ∀ (i : Fin m) (j : Fin n), r ≤ i.val → i.val < r + 3 →
      c ≤ j.val → j.val < c + 3 → M i j = 0) :
    insertBlock M r c B = M + blockEmbed r c B := by
  ext i j
  rw [Matrix.add_apply]
  by_cases h : r ≤ i.val ∧ i.val < r + 3 ∧ c ≤ j.val ∧ j.val < c + 3
  · rw [insertBlock_apply_in M r c B i j h.1 h.2.1 h.2.2.1 h.2.2.2,
      blockEmbed_apply_in r c B i j h.1 h.2.1 h.2.2.1 h.2.2.2,
      hz i j h.1 h.2.1 h.2.2.1 h.2.2.2, zero_add]
  · rw [insertBlock_apply_out M r c B i j h,
      blockEmbed_apply_out r c B i j h, add_zero]

/-- An Eigen block write that stores what the region already contains is a
no-op. -/
theorem insertBlock_eq_self {m n : ℕ} (M : Matrix (Fin m) (Fin n) ℝ)
    (r c : ℕ) (B : Mat3)
    (hs : ∀ (i : Fin m) (j : Fin n), ∀ h1 : r ≤ i.val, ∀ h2 : i.val < r + 3,
      ∀ h3 : c ≤ j.val, ∀ h4 : j.val < c + 3,
      M i j = B ⟨i.val - r, by omega⟩ ⟨j.val - c, by omega⟩) :
    insertBlock M r c B = M := by
  ext i j
  by_cases h : r ≤ i.val ∧ i.val < r + 3 ∧ c ≤ j.val ∧ j.val < c + 3
  · rw [insertBlock_apply_in M r c B i j h.1 h.2.1 h.2.2.1 h.2.2.2,
      hs i j h.1 h.2.1 h.2.2.1 h.2.2.2]
  · exact insertBlock_apply_out M r c B i j h

/-! The concrete C1 trace: options `optZero`, a first fix at the origin at
time 0, then two unit-`dt` IMU samples with acceleration `aVec` and zero
angular rate, then a position-only fix.  `Fc` is the transition matrix of
both predicts; its block decomposition `1 + FcN` drives the covariance
computation. -/

/-- The constant specific force of the C1 trace. -/
def aVec : Vec3 := ![1, 0, 0]

/-- The transition matrix produced by `predictF` on the C1 trace (`dt = 1`,
`R = 1`, zero biases, zero angular rate, acceleration `aVec`). -/
noncomputable def Fc : Mat18 :=
  insertBlock (insertBlock (insertBlock (insertBlock (insertBlock
    (insertBlock (1 : Mat18)
      0 3 (1 : Mat3))
      3 6 (-so3Hat aVec))
      3 12 (-1))
      3 15 (1 : Mat3))
      6 6 (1 : Mat3))
      6 9 (-1)

/-- The off-diagonal part of `Fc` as a sum of block embeddings. -/
noncomputable def FcN : Mat18 :=
  blockEmbed 0 3 (1 : Mat3) + blockEmbed 3 6 (-so3Hat aVec)
    + blockEmbed 3 12 (-1) + blockEmbed 3 15 (1 : Mat3)
    + blockEmbed 6 9 (-1)

theorem Fc_decomp : Fc = 1 + FcN := by
  have ne18 : ∀ (i j : Fin 18), i.val ≠ j.val → (1 : Mat18) i j = 0 :=
    fun i j h => Matrix.one_apply_ne (fun hc => h (congrArg Fin.val hc))
  have s1 : insertBlock (1 : Mat18) 0 3 (1 : Mat3)
      = 1 + (blockEmbed 0 3 (1 : Mat3) : Mat18) :=
    insertBlock_eq_add _ _ _ _ (fun i j a1 a2 a3 a4 => ne18 i j (by omega))
  have s2 : insertBlock (1 + (blockEmbed 0 3 (1 : Mat3) : Mat18)) 3 6
        (-so3Hat aVec)
      = 1 + blockEmbed 0 3 (1 : Mat3) + blockEmbed 3 6 (-so3Hat aVec) := by
    apply insertBlock_eq_add
    intro i j a1 a2 a3 a4
    rw [Matrix.add_apply, ne18 i j (by omega),
      blockEmbed_row_out 0 3 _ i j (by omega), add_zero]
  have s3 : insertBlock
        (1 + (blockEmbed 0 3 (1 : Mat3) : Mat18) + blockEmbed 3 6 (-so3Hat aVec))
        3 12 (-1)
      = 1 + blockEmbed 0 3 (1 : Mat3) + blockEmbed 3 6 (-so3Hat aVec)
          + blockEmbed 3 12 (-1) := by
    apply insertBlock_eq_add
    intro i j a1 a2 a3 a4
    rw [Matrix.add_apply, Matrix.add_apply, ne18 i j (by omega),
      blockEmbed_row_out 0 3 _ i j (by omega),
      blockEmbed_col_out 3 6 _ i j (by omega), add_zero, add_zero]
  have s4 : insertBlock
        (1 + (blockEmbed 0 3 (1 : Mat3) : Mat18) + blockEmbed 3 6 (-so3Hat aVec)
          + blockEmbed 3 12 (-1)) 3 15 (1 : Mat3)
      = 1 + blockEmbed 0 3 (1 : Mat3) + blockEmbed 3 6 (-so3Hat aVec)
          + blockEmbed 3 12 (-1) + blockEmbed 3 15 (1 : Mat3) := by
    apply insertBlock_eq_add
    intro i j a1 a2 a3 a4
    rw [Matrix.add_apply, Matrix.add_apply, Matrix.add_apply,
      ne18 i j (by omega),
      blockEmbed_row_out 0 3 _ i j (by omega),
      blockEmbed_col_out 3 6 _ i j (by omega),
      blockEmbed_col_out 3 12 _ i j (by omega), add_zero, add_zero, add_zero]
  have s5 : insertBlock
        (1 + (blockEmbed 0 3 (1 : Mat3) : Mat18) + blockEmbed 3 6 (-so3Hat aVec)
          + blockEmbed 3 12 (-1) + blockEmbed 3 15 (1 : Mat3)) 6 6 (1 : Mat3)
      = 1 + blockEmbed 0 3 (1 : Mat3) + blockEmbed 3 6 (-so3Hat aVec)
          + blockEmbed 3 12 (-1) + blockEmbed 3 15 (1 : Mat3) := by
    apply insertBlock_eq_self
    intro i j a1 a2 a3 a4
    rw [Matrix.add_apply, Matrix.add_apply, Matrix.add_apply, Matrix.add_apply,
      blockEmbed_row_out 0 3 _ i j (by omega),
      blockEmbed_row_out 3 6 _ i j (by omega),
      blockEmbed_row_out 3 12 _ i j (by omega),
      blockEmbed_row_out 3 15 _ i j (by omega), add_zero, add_zero, add_zero,
      add_zero, Matrix.one_apply, Matrix.one_apply]
    by_cases hij : i = j
    · rw [if_pos hij, if_pos (by subst hij; rfl)]
    · rw [if_neg hij, if_neg ?_]
      intro hc
      exact hij (Fin.ext (by have := congrArg Fin.val hc; simp only [] at this; omega))
  have s6 : insertBlock
        (1 + (blockEmbed 0 3 (1 : Mat3) : Mat18) + blockEmbed 3 6 (-so3Hat aVec)
          + blockEmbed 3 12 (-1) + blockEmbed 3 15 (1 : Mat3)) 6 9 (-1)
      = 1 + blockEmbed 0 3 (1 : Mat3) + blockEmbed 3 6 (-so3Hat aVec)
          + blockEmbed 3 12 (-1) + blockEmbed 3 15 (1 : Mat3)
          + blockEmbed 6 9 (-1) := by
    apply insertBlock_eq_add
    intro i j a1 a2 a3 a4
    rw [Matrix.add_apply, Matrix.add_apply, Matrix.add_apply, Matrix.add_apply,
      ne18 i j (by omega),
      blockEmbed_row_out 0 3 _ i j (by omega),
      blockEmbed_row_out 3 6 _ i j (by omega),
      blockEmbed_row_out 3 12 _ i j (by omega),
      blockEmbed_row_out 3 15 _ i j (by omega), add_zero, add_zero, add_zero,
      add_zero]
  rw [Fc, s1, s2, s3, s4, s5, s6, FcN]
  simp only [add_assoc]

theorem so3Hat_zero : so3Hat 0 = 0 := by
  ext i j
  fin_cases i <;> fin_cases j <;>
    simp [so3Hat, Matrix.vecHead, Matrix.vecTail]

theorem so3Exp_zero : so3Exp 0 = 1 := by
  rw [so3Exp, so3Hat_zero]
  simp

theorem euler2Cbn_zero : euler2Cbn 0 0 0 = 1 := by
  ext i j
  fin_cases i <;> fin_cases j <;>
    simp [euler2Cbn, Matrix.mul_apply, Fin.sum_univ_three, Matrix.one_apply,
      Matrix.transpose_apply, Matrix.vecHead, Matrix.vecTail]

theorem buildPhoneInstallMatrix_optZero : buildPhoneInstallMatrix optZero = 1 :=
  euler2Cbn_zero

theorem buildNoiseQ_optZero : buildNoiseQ optZero = 0 := by
  have hv : ![(0 : ℝ), 0, 0, optZero.acce_var, optZero.acce_var,
      optZero.acce_var, optZero.gyro_var, optZero.gyro_var, optZero.gyro_var,
      optZero.bias_gyro_var, optZero.bias_gyro_var, optZero.bias_gyro_var,
      optZero.bias_acce_var, optZero.bias_acce_var, optZero.bias_acce_var,
      0, 0, 0] = (0 : Fin 18 → ℝ) := by
    funext i
    fin_cases i <;> rfl
  rw [buildNoiseQ, hv]
  ext i j
  rw [Matrix.diagonal_apply]
  simp

/-! The concrete C1 trace states. -/

/-- The initializing fix of the C1 trace (identity pose at the origin,
invalid heading — the first-fix branch ignores it). -/
noncomputable def fixInit : GNSS := ⟨0, 4, 0, 0, false, ⟨1, 0⟩⟩

/-- The position-only fix of the C1 trace, inside the turn segment `(2, 3)`
and displaced from the dead-reckoned position. -/
noncomputable def fixTurn : GNSS := ⟨2.5, 4, 0, 0, false, ⟨1, ![0, 0, 1]⟩⟩

/-- First IMU sample of the C1 trace. -/
noncomputable def imuA : IMU := ⟨1, 0, aVec⟩

/-- Second IMU sample of the C1 trace. -/
noncomputable def imuB : IMU := ⟨2, 0, aVec⟩

/-- The filter state right after the first fix on the C1 trace. -/
noncomputable def st1L : State :=
  ⟨0, 0, 0, 1, 0, 0, 0, 0, (0.0001 : ℝ) • (1 : Mat18), 0,
    buildGnssNoise optZero, false, 1, optZero⟩

/-- The filter state after the first predict of the C1 trace. -/
noncomputable def st2L : State :=
  ⟨1, (0.5 : ℝ) • aVec, aVec, 1, 0, 0, 0, 0,
    (0.0001 : ℝ) • (Fc * Fc.transpose), 0,
    buildGnssNoise optZero, false, 1, optZero⟩

/-- The filter state after the second predict of the C1 trace. -/
noncomputable def st3L : State :=
  ⟨2, (2 : ℝ) • aVec, (2 : ℝ) • aVec, 1, 0, 0, 0, 0,
    (0.0001 : ℝ) • ((Fc * Fc) * (Fc * Fc).transpose), 0,
    buildGnssNoise optZero, false, 1, optZero⟩

theorem trace_init :
    (observeGps (setInitialConditions (construct optZero) optZero 0 0 0)
      fixInit).2 = st1L := by
  simp only [observeGps, setInitialConditions, construct, fixInit, st1L]
  norm_num [buildNoiseQ_optZero, buildPhoneInstallMatrix_optZero]

theorem trace_pred1 : predict st1L imuA = (true, st2L) := by
  have hci : compensatedIMU st1L imuA = imuA := by
    simp [compensatedIMU, applyPhoneInstallCorrection, applyTimeCompensation,
      st1L, imuA, optZero]
  have hnewR : predictNewR st1L imuA 1 = 1 := by
    simp [predictNewR, st1L, imuA, so3Exp_zero]
  have hF : predictF st1L imuA 1 = Fc := by
    rw [predictF, hnewR, Fc]
    simp [st1L, imuA, so3Exp_zero]
  rw [predict, hci]
  rw [show imuA.timestamp - st1L.current_time = (1 : ℝ) from by
    norm_num [imuA, st1L]]
  rw [if_neg (by norm_num), if_neg (by norm_num [st1L, optZero])]
  refine congrArg (Prod.mk true) ?_
  rw [predictSuccess, hF]
  have hp : predictNewP st1L imuA 1 = (0.5 : ℝ) • aVec := by
    funext k
    simp [predictNewP, st1L, imuA, Matrix.one_mulVec]
    try ring
  have hv : predictNewV st1L imuA 1 = aVec := by
    funext k
    simp [predictNewV, st1L, imuA, Matrix.one_mulVec]
  have hdx : Fc.mulVec st1L.dx = 0 := by
    simp [st1L]
  have hcov : Fc * st1L.cov * Fc.transpose + st1L.Q
      = (0.0001 : ℝ) • (Fc * Fc.transpose) := by
    show Fc * ((0.0001 : ℝ) • 1) * Fc.transpose + 0 = _
    rw [Matrix.mul_smul, Matrix.mul_one, Matrix.smul_mul, add_zero]
  rw [hp, hv, hnewR, hdx, hcov]
  rfl

theorem trace_pred2 : predict st2L imuB = (true, st3L) := by
  have hci : compensatedIMU st2L imuB = imuB := by
    simp [compensatedIMU, applyPhoneInstallCorrection, applyTimeCompensation,
      st2L, imuB, optZero]
  have hnewR : predictNewR st2L imuB 1 = 1 := by
    simp [predictNewR, st2L, imuB, so3Exp_zero]
  have hF : predictF st2L imuB 1 = Fc := by
    rw [predictF, hnewR, Fc]
    simp [st2L, imuB, so3Exp_zero]
  rw [predict, hci]
  rw [show imuB.timestamp - st2L.current_time = (1 : ℝ) from by
    norm_num [imuB, st2L]]
  rw [if_neg (by norm_num), if_neg (by norm_num [st2L, optZero])]
  refine congrArg (Prod.mk true) ?_
  rw [predictSuccess, hF]
  have hp : predictNewP st2L imuB 1 = (2 : ℝ) • aVec := by
    funext k
    simp [predictNewP, st2L, imuB, Matrix.one_mulVec]
    try ring
  have hv : predictNewV st2L imuB 1 = (2 : ℝ) • aVec := by
    funext k
    simp [predictNewV, st2L, imuB, Matrix.one_mulVec]
    try ring
  have hdx : Fc.mulVec st2L.dx = 0 := by
    simp [st2L]
  have hcov : Fc * st2L.cov * Fc.transpose + st2L.Q
      = (0.0001 : ℝ) • ((Fc * Fc) * (Fc * Fc).transpose) := by
    show Fc * ((0.0001 : ℝ) • (Fc * Fc.transpose)) * Fc.transpose + 0 = _
    rw [Matrix.mul_smul, Matrix.smul_mul, add_zero, ← Matrix.mul_assoc,
      Matrix.mul_assoc (Fc * Fc) Fc.transpose Fc.transpose,
      Matrix.transpose_mul]
  rw [hp, hv, hnewR, hdx, hcov]
  rfl

theorem so3Hat_transpose (v : Vec3) : (so3Hat v).transpose = -so3Hat v := by
  ext i j
  fin_cases i <;> fin_cases j <;>
    simp [so3Hat, Matrix.transpose_apply, Matrix.vecHead, Matrix.vecTail]

theorem H3_embed : H3 = (blockEmbed 0 0 (1 : Mat3) : Matrix (Fin 3) (Fin 18) ℝ) := by
  rw [H3, insertBlock_eq_add (0 : Matrix (Fin 3) (Fin 18) ℝ) 0 0 (1 : Mat3)
    (fun i j _ _ _ _ => rfl), zero_add]

theorem FcN_sq : FcN * FcN
    = blockEmbed 0 6 (-so3Hat aVec) + blockEmbed 0 12 (-1)
      + blockEmbed 0 15 (1 : Mat3) + blockEmbed 3 9 (so3Hat aVec) := by
  rw [FcN]
  simp only [add_mul, mul_add, blockEmbed_mul 0 3 6, blockEmbed_mul 0 3 12,
    blockEmbed_mul 0 3 15, blockEmbed_mul 3 6 9, blockEmbed_mul_disjoint,
    one_mul, mul_one, neg_mul, mul_neg, neg_neg, add_zero, zero_add,
    Nat.reduceLeDiff, Nat.reduceAdd, or_true, true_or]
  try abel

theorem FcFc_decomp : Fc * Fc = 1 + FcN + FcN + FcN * FcN := by
  rw [Fc_decomp, add_mul, one_mul, mul_add, mul_one]
  abel

theorem GtH_decomp : (Fc * Fc).transpose
      * (blockEmbed 0 0 (1 : Mat3) : Matrix (Fin 18) (Fin 3) ℝ)
    = blockEmbed 0 0 (1 : Mat3) + blockEmbed 3 0 (1 : Mat3)
      + blockEmbed 3 0 (1 : Mat3) + blockEmbed 6 0 (so3Hat aVec)
      + blockEmbed 12 0 (-1) + blockEmbed 15 0 (1 : Mat3) := by
  rw [FcFc_decomp, FcN_sq]
  simp only [FcN, Matrix.transpose_add, Matrix.transpose_one,
    blockEmbed_transpose, Matrix.transpose_neg, so3Hat_transpose, neg_neg]
  simp only [Matrix.add_mul, Matrix.one_mul, blockEmbed_mul 3 0 0,
    blockEmbed_mul 6 0 0, blockEmbed_mul 12 0 0, blockEmbed_mul 15 0 0,
    blockEmbed_mul_disjoint, one_mul, mul_one, neg_mul, neg_neg,
    add_zero, zero_add, Nat.reduceLeDiff, Nat.reduceAdd, or_true, true_or]
  try abel

/-- `(Fc·Fc)·(Fc·Fc)ᵀ·H3ᵀ` as a flat sum of block embeddings (with
multiplicities kept as repeated summands). -/
noncomputable def CHflat : Matrix (Fin 18) (Fin 3) ℝ :=
  blockEmbed 0 0 (1 : Mat3) + blockEmbed 0 0 (1 : Mat3)
    + blockEmbed 0 0 (1 : Mat3) + blockEmbed 0 0 (1 : Mat3)
    + blockEmbed 0 0 (1 : Mat3) + blockEmbed 0 0 (1 : Mat3)
    + blockEmbed 0 0 (1 : Mat3) + blockEmbed 0 0 (-(so3Hat aVec * so3Hat aVec))
    + blockEmbed 3 0 (1 : Mat3) + blockEmbed 3 0 (1 : Mat3)
    + blockEmbed 3 0 (1 : Mat3) + blockEmbed 3 0 (1 : Mat3)
    + blockEmbed 3 0 (1 : Mat3) + blockEmbed 3 0 (1 : Mat3)
    + blockEmbed 3 0 (-(so3Hat aVec * so3Hat aVec))
    + blockEmbed 3 0 (-(so3Hat aVec * so3Hat aVec))
    + blockEmbed 6 0 (so3Hat aVec) + blockEmbed 12 0 (-1)
    + blockEmbed 15 0 (1 : Mat3)

theorem covCH_decomp :
    (Fc * Fc) * ((Fc * Fc).transpose * H3.transpose) = CHflat := by
  rw [H3_embed, blockEmbed_transpose, Matrix.transpose_one, GtH_decomp,
    CHflat]
  nth_rewrite 1 [FcFc_decomp]
  rw [FcN_sq]
  simp only [FcN]
  simp only [Matrix.add_mul, Matrix.mul_add, Matrix.one_mul,
    blockEmbed_mul 0 3 0, blockEmbed_mul 3 6 0, blockEmbed_mul 3 12 0,
    blockEmbed_mul 3 15 0, blockEmbed_mul 0 6 0, blockEmbed_mul 0 12 0,
    blockEmbed_mul 0 15 0, blockEmbed_mul_disjoint, one_mul, mul_one,
    neg_mul, mul_neg, neg_neg, add_zero, zero_add, Nat.reduceLeDiff,
    Nat.reduceAdd, or_true, true_or]
  try abel

theorem cov3_Ht : st3L.cov * H3.transpose = (0.0001 : ℝ) • CHflat := by
  show ((0.0001 : ℝ) • ((Fc * Fc) * (Fc * Fc).transpose)) * H3.transpose = _
  rw [Matrix.smul_mul, Matrix.mul_assoc, covCH_decomp]

theorem H3_CHflat : H3 * CHflat
    = (1 : Mat3) + 1 + 1 + 1 + 1 + 1 + 1 + -(so3Hat aVec * so3Hat aVec) := by
  rw [H3_embed, CHflat]
  simp only [Matrix.mul_add, blockEmbed_mul 0 0 0, blockEmbed_mul_disjoint,
    one_mul, add_zero, zero_add, Nat.reduceLeDiff, Nat.reduceAdd, or_true,
    true_or, blockEmbed_id3]
  try abel

theorem SM_diag : H3 * st3L.cov * H3.transpose + posNoiseV 1
    = Matrix.diagonal ![10007/10000, 10008/10000, 10008/10000] := by
  rw [Matrix.mul_assoc, cov3_Ht, Matrix.mul_smul, H3_CHflat]
  ext i j
  fin_cases i <;> fin_cases j <;>
    (simp only [Matrix.add_apply, Matrix.smul_apply, Matrix.neg_apply,
      Matrix.one_apply, Matrix.mul_apply, Fin.sum_univ_three,
      Matrix.diagonal_apply, posNoiseV, smul_eq_mul]
     norm_num [so3Hat, aVec, Fin.ext_iff, Matrix.vecHead, Matrix.vecTail])

theorem SM_inv : (H3 * st3L.cov * H3.transpose + posNoiseV 1)⁻¹
    = Matrix.diagonal ![10000/10007, 10000/10008, 10000/10008] := by
  rw [SM_diag]
  apply Matrix.inv_eq_left_inv
  rw [Matrix.diagonal_mul_diagonal]
  have hv : ∀ i : Fin 3,
      ![(10000 : ℝ)/10007, 10000/10008, 10000/10008] i
        * ![(10007 : ℝ)/10000, 10008/10000, 10008/10000] i = 1 := by
    intro i
    fin_cases i <;> norm_num
  rw [show (Matrix.diagonal fun i =>
        ![(10000 : ℝ)/10007, 10000/10008, 10000/10008] i
          * ![(10007 : ℝ)/10000, 10008/10000, 10008/10000] i)
      = Matrix.diagonal (fun _ : Fin 3 => (1 : ℝ)) from
    congrArg _ (funext hv), Matrix.diagonal_one]

/-- The inverse of the innovation covariance on the C1 trace. -/
noncomputable def Dinv : Mat3 :=
  Matrix.diagonal ![10000/10007, 10000/10008, 10000/10008]

/-- Multiplying a full-width embedding by a 3x3 matrix on the right acts on
the block. -/
theorem blockEmbed_mul_right3 {m : ℕ} (r : ℕ) (B X : Mat3) :
    (blockEmbed r 0 B : Matrix (Fin m) (Fin 3) ℝ) * X
      = blockEmbed r 0 (B * X) := by
  conv_lhs => rw [← blockEmbed_id3 X]
  exact blockEmbed_mul r 0 0 B X (by omega)

theorem gainPos_st3L :
    gainPos st3L.cov st3L.options.gnss_pos_noise
      = (0.0001 : ℝ) • (CHflat * Dinv) := by
  rw [gainPos, show st3L.options.gnss_pos_noise = (1 : ℝ) from rfl, SM_inv,
    cov3_Ht, Matrix.smul_mul]
  rfl

theorem CHflat_D : CHflat * Dinv
    = blockEmbed 0 0 Dinv + blockEmbed 0 0 Dinv
      + blockEmbed 0 0 Dinv + blockEmbed 0 0 Dinv
      + blockEmbed 0 0 Dinv + blockEmbed 0 0 Dinv
      + blockEmbed 0 0 Dinv
      + blockEmbed 0 0 (-(so3Hat aVec * so3Hat aVec * Dinv))
      + blockEmbed 3 0 Dinv + blockEmbed 3 0 Dinv
      + blockEmbed 3 0 Dinv + blockEmbed 3 0 Dinv
      + blockEmbed 3 0 Dinv + blockEmbed 3 0 Dinv
      + blockEmbed 3 0 (-(so3Hat aVec * so3Hat aVec * Dinv))
      + blockEmbed 3 0 (-(so3Hat aVec * so3Hat aVec * Dinv))
      + blockEmbed 6 0 (so3Hat aVec * Dinv) + blockEmbed 12 0 (-Dinv)
      + blockEmbed 15 0 Dinv := by
  rw [CHflat]
  simp only [Matrix.add_mul, blockEmbed_mul_right3, one_mul, neg_mul]

theorem dx_att_block :
    blockOf ((gainPos st3L.cov st3L.options.gnss_pos_noise).mulVec
        (fixTurn.utm_pose.translation - st3L.p)) 6
      = ![0, -(1/10008), 0] := by
  rw [gainPos_st3L, CHflat_D, Matrix.smul_mulVec_assoc]
  funext t
  rw [blockOf]
  fin_cases t <;>
    (simp only [Matrix.add_mulVec, Pi.add_apply, Pi.smul_apply, Fin.val_mk,
      blockEmbed_mulVec_in, blockEmbed_mulVec_out, Nat.reduceLeDiff,
      Nat.reduceLT, Nat.reduceSub, Nat.reduceAdd, or_true, true_or,
      false_or, or_false, add_zero, zero_add, smul_eq_mul]
     norm_num [Matrix.mulVec, Matrix.dotProduct, Fin.sum_univ_three,
       Matrix.mul_apply, Matrix.diagonal_apply, Fin.ext_iff, so3Hat, aVec,
       Dinv, fixTurn, st3L, Pi.sub_apply, Pi.smul_apply, Matrix.vecHead,
       Matrix.vecTail, smul_eq_mul])

/-- After the first fix, `ObservePositionOnly(GNSS)` rotates `R` by exactly
the exponential of the attitude rows (6..8) of `K·(z - p)`, the error-state
increment produced by the position-restricted gain; no other write touches
`R`. -/
theorem observePositionOnlyGnss_R (st : State) (g : GNSS)
    (h : st.first_gnss = false) :
    (observePositionOnlyGnss st g).2.R
      = st.R * so3Exp (blockOf
          ((gainPos st.cov st.options.gnss_pos_noise).mulVec
            (g.utm_pose.translation - st.p)) 6) := by
  rw [observePositionOnlyGnss, if_neg (by rw [h]; exact Bool.false_ne_true)]
  rfl

theorem vnorm_wTurn : vnorm ![0, -(1/10008), 0] = 1/10008 := by
  rw [vnorm]
  rw [show ((![0, -(1/10008), 0] : Vec3) 0) ^ 2
        + ((![0, -(1/10008), 0] : Vec3) 1) ^ 2
        + ((![0, -(1/10008), 0] : Vec3) 2) ^ 2 = ((1:ℝ)/10008) ^ 2 by
    norm_num]
  exact Real.sqrt_sq (by norm_num)

theorem so3Exp_wTurn_entry :
    so3Exp ![0, -(1/10008), 0] 0 2 = -Real.sin (1/10008) := by
  rw [so3Exp, vnorm_wTurn]
  simp only [Matrix.add_apply, Matrix.smul_apply, Matrix.one_apply,
    Matrix.mul_apply, Fin.sum_univ_three, so3Hat, Matrix.of_apply,
    smul_eq_mul]
  norm_num [Matrix.vecHead, Matrix.vecTail, Fin.ext_iff]

theorem so3Exp_wTurn_ne_one : so3Exp ![0, -(1/10008), 0] ≠ 1 := by
  intro hcon
  have h02 := congrFun (congrFun hcon 0) 2
  rw [so3Exp_wTurn_entry] at h02
  have hone : (1 : Mat3) 0 2 = 0 := Matrix.one_apply_ne (by decide)
  rw [hone] at h02
  have hsin : 0 < Real.sin (1/10008) := by
    apply Real.sin_pos_of_pos_of_lt_pi (by norm_num)
    calc (1:ℝ)/10008 < 3 := by norm_num
    _ < Real.pi := Real.pi_gt_three
  nlinarith [h02, hsin]

/-- C1 (corrected): after the first-fix initialization, a position-only GNSS
update rewrites `R` as `R · Exp(dx[6:9])` where `dx = K·(z − p)` is built
from the position-restricted `H` — the attitude error rows are touched only
through that gain — and `R` is left unchanged whenever the attitude–position
cross-covariance block is zero; it is NOT left unchanged in general (see the
counterexample). -/
theorem position_only_update_rotation (st : State) (g : GNSS)
    (h : st.first_gnss = false) :
    (observePositionOnlyGnss st g).2.R
      = st.R * so3Exp (blockOf
          ((gainPos st.cov st.options.gnss_pos_noise).mulVec
            (g.utm_pose.translation - st.p)) 6)
    ∧ ((∀ i j : Fin 18, 6 ≤ i.val → i.val < 9 → j.val < 3 → st.cov i j = 0) →
        (observePositionOnlyGnss st g).2.R = st.R) := by
  refine ⟨observePositionOnlyGnss_R st g h, fun hz => ?_⟩
  rw [observePositionOnlyGnss_R st g h]
  have hK : ∀ (r : Fin 18) (j : Fin 3), 6 ≤ r.val → r.val < 9 →
      gainPos st.cov st.options.gnss_pos_noise r j = 0 := by
    intro r j hr1 hr2
    rw [gainPos, Matrix.mul_apply]
    apply Finset.sum_eq_zero
    intro m _
    have hcH : (st.cov * H3.transpose) r m = 0 := by
      rw [Matrix.mul_apply]
      apply Finset.sum_eq_zero
      intro k _
      by_cases hk : k.val < 3
      · rw [hz r k hr1 hr2 hk, zero_mul]
      · rw [Matrix.transpose_apply, H3_embed,
          blockEmbed_col_out 0 0 _ m k (by omega), mul_zero]
    rw [hcH, zero_mul]
  have hblock : blockOf ((gainPos st.cov st.options.gnss_pos_noise).mulVec
      (g.utm_pose.translation - st.p)) 6 = 0 := by
    funext t
    simp only [blockOf]
    rw [dif_pos (show 6 + t.val < 18 by omega)]
    rw [Matrix.mulVec, Matrix.dotProduct]
    rw [show (0 : Vec3) t = 0 from rfl]
    apply Finset.sum_eq_zero
    intro j _
    rw [hK ⟨6 + t.val, by omega⟩ j (by show 6 ≤ 6 + t.val; omega)
      (by show 6 + t.val < 9; omega), zero_mul]
  rw [hblock, so3Exp_zero, mul_one]

/-- Witness for the C1 theorem at a concrete state: `stPast` has identity
covariance, so the attitude–position cross block vanishes and the
position-only update leaves `R` unchanged there. -/
theorem position_only_update_rotation_witness :
    stPast.first_gnss = false
    ∧ (observePositionOnlyGnss stPast gnssNoHeading).2.R = stPast.R := by
  refine ⟨rfl, (position_only_update_rotation stPast gnssNoHeading rfl).2 ?_⟩
  intro i j h1 h2 h3
  show (1 : Mat18) i j = 0
  exact Matrix.one_apply_ne (fun hc => by
    have := congrArg Fin.val hc
    omega)

/-- C1 counterexample: on a concretely reachable trace — first fix, two
successful `Predict` calls with a constant lateral acceleration, then a
position-only update with a fix lying inside the turn segment `(2, 3)` — the
update changes `R`: the built-up position–attitude cross covariance feeds the
position innovation into the attitude rows of `dx`, and `UpdateAndReset`
multiplies `R` by its exponential. -/
theorem position_only_changes_R_example :
    (observeGps (setInitialConditions (construct optZero) optZero 0 0 0)
        fixInit).2 = st1L
    ∧ st1L.first_gnss = false
    ∧ predict st1L imuA = (true, st2L)
    ∧ predict st2L imuB = (true, st3L)
    ∧ Offline.isInTurnSegment [(2, 3)] fixTurn.unix_time = true
    ∧ (observePositionOnlyGnss st3L fixTurn).2.R ≠ st3L.R := by
  refine ⟨trace_init, rfl, trace_pred1, trace_pred2, ?_, ?_⟩
  · simp only [Offline.isInTurnSegment, fixTurn, List.any_cons, List.any_nil,
      Bool.or_false, decide_eq_true_eq]
    norm_num
  · rw [observePositionOnlyGnss_R st3L fixTurn rfl, dx_att_block,
      show st3L.R = 1 from rfl, one_mul]
    exact so3Exp_wTurn_ne_one

end ESKF
